import Mathlib

set_option maxHeartbeats 1000000

/-
Verification of the bulk-import job controller of the Clerk-account
console.  The embedding below is translated from:
  - the ClerkAccountsContext job controller (startImportJob,
    pauseImportJob, resumeImportJob, stopImportJob, clearImportJob,
    updateJobSettings, initialJobState) in src/src/pages/ResetPasswords.tsx;
  - the BulkImport page record parser (parseUserData) and start handler
    (handleStartImport) together with its button guards;
  - the POST /api/import-user endpoint of src/backend/server.js.

Real-time aspects are abstracted: the once-per-second elapsed ticker and
the 200 ms pause poll only consume wall-clock time, so the model records
instead the sequence of job states published to observers and the
sequence of outbound remote calls.  The values of the per-account
isStoppedRef flag, as observed by the run loop at each of its two
checkpoints per iteration, are supplied by an environment, and the
remote outcome of each call is likewise supplied by the environment.
-/

inductive OpStatus
  | success
  | error
deriving DecidableEq

structure UserOperationResult where
  email : String
  status : OpStatus
  message : String
  userId : Option String
deriving DecidableEq

structure BulkUserData where
  email : String
  firstName : String
  lastName : String
  password : String
deriving DecidableEq

inductive JobStatus
  | idle
  | running
  | paused
  | stopped
  | completed
deriving DecidableEq

/- ImportJob mirrors the ImportJob interface of src/types/clerk.ts, minus
the three mutable ref cells (isPausedRef, isStoppedRef, timerRef), which
are runtime handles kept in the separate jobRefs side table and are
modelled by JobRefs and the run environment below.  progress is a rational
standing for the JS float, which on these inputs is exact. -/
structure ImportJob where
  status : JobStatus
  results : List UserOperationResult
  progress : ℚ
  timeElapsed : ℕ
  successCount : ℕ
  failCount : ℕ
  showStats : Bool
  userEmails : String
  sendInvites : Bool
  delayInSeconds : ℕ
  countdown : ℕ
  nextUserEmail : Option String
deriving DecidableEq

def initialJobState : ImportJob :=
  { status := .idle
    results := []
    progress := 0
    timeElapsed := 0
    successCount := 0
    failCount := 0
    showStats := false
    userEmails := ""
    sendInvites := true
    delayInSeconds := 1
    countdown := 0
    nextUserEmail := none }

structure JobRefs where
  isPaused : Bool
  isStopped : Bool
deriving DecidableEq

abbrev JobStore := String → Option ImportJob
abbrev RefStore := String → Option JobRefs

/- The importJobs record: absent entries read as initialJobState, exactly
as in the updateJobState merge and the BulkImport page lookup. -/
def getJob (store : JobStore) (a : String) : ImportJob :=
  (store a).getD initialJobState

def setJob (store : JobStore) (a : String) (j : ImportJob) : JobStore :=
  fun b => if b = a then some j else store b

/- Clerk REST response as seen by the backend endpoint: 2xx with an
optional id, a non-2xx with the optional errors[0].long_message, or a
thrown fetch / json failure. -/
inductive ClerkResp
  | ok (id : Option String)
  | httpError (longMessage : Option String)
  | transportFail
deriving DecidableEq

/- Model of the JS expression (s || d): an absent or empty string falls
back to the default. -/
def jsOr (s : Option String) (d : String) : String :=
  match s with
  | none => d
  | some v => if v = "" then d else v

/- POST /api/import-user of backend/server.js, lines 182 to 234, as the
JSON body returned to the frontend.  accountFound reflects whether
getSecretKey succeeds; the 400 guard for a missing user or accountId is
unreachable from the loop, which always sends both. -/
def importUserEndpoint (accountFound : Bool) (sendInvites : Bool)
    (u : BulkUserData) (resp : ClerkResp) : UserOperationResult :=
  if accountFound then
    match resp with
    | .ok id =>
        { email := u.email
          status := .success
          message := if sendInvites then "Invitation sent" else "User created"
          userId := id }
    | .httpError m =>
        { email := u.email
          status := .error
          message := jsOr m "An API error occurred."
          userId := none }
    | .transportFail =>
        { email := u.email
          status := .error
          message := "Failed to connect to the Clerk API."
          userId := none }
  else
    { email := u.email
      status := .error
      message := "Account not found."
      userId := none }

/- Outcome of the frontend fetch to the backend for one record: either a
parsed JSON body (whatever the HTTP status) or a thrown network error. -/
inductive RemoteOutcome
  | response (r : UserOperationResult)
  | networkError
deriving DecidableEq

/- The try/catch around the fetch in startImportJob, lines 521 to 532. -/
def processRecord (u : BulkUserData) (o : RemoteOutcome) : UserOperationResult :=
  match o with
  | .response r => r
  | .networkError =>
      { email := u.email
        status := .error
        message := "Failed to connect to backend."
        userId := none }

/- Observable actions of a run: a state published through setImportJobs,
or one outbound call to the backend. -/
inductive Event
  | publish (j : ImportJob)
  | remoteCall (accountId : String) (u : BulkUserData) (sendInvites : Bool)
deriving DecidableEq

/- Environment of one run: the isStoppedRef value observed at the top
checkpoint of iteration i, the value observed at the post-pause-wait
checkpoint of iteration i, the remote outcome of call i, and the value
read once more after the loop exits (line 553). -/
structure RunEnv where
  stopTop : ℕ → Bool
  stopPost : ℕ → Bool
  outcome : ℕ → RemoteOutcome
  stopFinal : Bool

/- The stop flag is only ever set during a run, never cleared, so later
observations dominate earlier ones. -/
def StopConsistent (env : RunEnv) : Prop :=
  (∀ i, env.stopTop i = true → env.stopPost i = true) ∧
  (∀ i, env.stopPost i = true → env.stopTop (i + 1) = true) ∧
  (∀ i, env.stopPost i = true → env.stopFinal = true)

def NoStop (env : RunEnv) : Prop :=
  (∀ i, env.stopTop i = false ∧ env.stopPost i = false) ∧ env.stopFinal = false

/- The countdown interval of lines 504 to 515: each tick publishes the
decremented countdown and the interval clears once the new value reaches
zero.  The fuel argument equals the current countdown value. -/
def countdownRun (j : ImportJob) : ℕ → ImportJob × List Event
  | 0 => (j, [])
  | fuel + 1 =>
      let j' := { j with countdown := j.countdown - 1 }
      let p := countdownRun j' fuel
      (p.1, Event.publish j' :: p.2)

/- Lines 502 to 517: publish the pending email and the full countdown,
run the ticks, then clear both fields. -/
def countdownPhase (j : ImportJob) (email : String) (d : ℕ) : ImportJob × List Event :=
  let j0 := { j with nextUserEmail := some email, countdown := d }
  let t := countdownRun j0 d
  let j2 := { t.1 with nextUserEmail := none, countdown := 0 }
  (j2, Event.publish j0 :: t.2 ++ [Event.publish j2])

/- The single setImportJobs update of lines 534 to 546: new results
array, recomputed progress, and exactly one counter bumped by the
outcome of this record. -/
def recordStep (j : ImportJob) (acc : List UserOperationResult)
    (r : UserOperationResult) (i n : ℕ) : ImportJob :=
  { j with
      results := acc
      progress := ((i : ℚ) + 1) / (n : ℚ) * 100
      successCount := if r.status = .success then j.successCount + 1 else j.successCount
      failCount := if r.status = .error then j.failCount + 1 else j.failCount }

/- The for loop of lines 485 to 547.  d and inv are the delayInSeconds
and sendInvites captured once from currentJobSettings at start; n is the
full input length; i the current index; acc the newResults array; j the
current stored job.  The pause busy-wait publishes nothing and only
consumes time, so it appears only through the stopPost checkpoint. -/
def runLoop (a : String) (env : RunEnv) (d : ℕ) (inv : Bool) (n : ℕ) :
    List BulkUserData → ℕ → List UserOperationResult → ImportJob → ImportJob × List Event
  | [], _, _, j => (j, [])
  | u :: rest, i, acc, j =>
      if env.stopTop i then (j, [])
      else if env.stopPost i then (j, [])
      else
        let cd := if 0 < i ∧ 0 < d then countdownPhase j u.email d else (j, [])
        let r := processRecord u (env.outcome i)
        let acc' := acc ++ [r]
        let j2 := recordStep cd.1 acc' r i n
        let rest' := runLoop a env d inv n rest (i + 1) acc' j2
        (rest'.1, cd.2 ++ Event.remoteCall a u inv :: Event.publish j2 :: rest'.2)

/- The initial updateJobState of lines 467 to 477: every process field
reset, configuration fields kept. -/
def startReset (j : ImportJob) : ImportJob :=
  { j with
      status := .running
      results := []
      progress := 0
      timeElapsed := 0
      successCount := 0
      failCount := 0
      showStats := true
      countdown := 0
      nextUserEmail := none }

/- startImportJob, lines 454 to 558.  Note that it performs no check of
the current status: it unconditionally resets the job record and enters
the loop.  The final status is stopped or completed by the flag value
read after the loop exits. -/
def startImportJob (store : JobStore) (env : RunEnv) (a : String)
    (users : List BulkUserData) : JobStore × List Event :=
  let settings := getJob store a
  let j0 := startReset settings
  let run := runLoop a env settings.delayInSeconds settings.sendInvites
    users.length users 0 [] j0
  let jf := { run.1 with status := if env.stopFinal then JobStatus.stopped else .completed }
  (setJob store a jf, Event.publish j0 :: run.2 ++ [Event.publish jf])

/- pauseImportJob, lines 560 to 568: guarded only by the existence of a
jobRefs entry, never by the current status. -/
def pauseImportJob (refs : RefStore) (store : JobStore) (a : String) :
    RefStore × JobStore :=
  match refs a with
  | none => (refs, store)
  | some h =>
      ((fun b => if b = a then some { h with isPaused := true } else refs b),
       setJob store a { getJob store a with status := .paused })

/- resumeImportJob, lines 570 to 578: same guard. -/
def resumeImportJob (refs : RefStore) (store : JobStore) (a : String) :
    RefStore × JobStore :=
  match refs a with
  | none => (refs, store)
  | some h =>
      ((fun b => if b = a then some { h with isPaused := false } else refs b),
       setJob store a { getJob store a with status := .running })

/- stopImportJob, lines 580 to 588: sets the flag, leaves the stored job
to the loop. -/
def stopImportJob (refs : RefStore) (a : String) : RefStore :=
  match refs a with
  | none => refs
  | some h => fun b => if b = a then some { h with isStopped := true } else refs b

/- clearImportJob, lines 590 to 592: merges the complete initial state
over the stored job, status unchecked. -/
def clearImportJob (store : JobStore) (a : String) : JobStore :=
  setJob store a initialJobState

/- updateJobSettings, lines 594 to 596: an arbitrary partial merge into
the stored job, here a full function on the record. -/
def updateJobSettings (store : JobStore) (a : String) (f : ImportJob → ImportJob) :
    JobStore :=
  setJob store a (f (getJob store a))

/- The three BulkImport page setters route through updateJobSettings and
only touch the configuration fields. -/
def settingsUpdate (e : String) (si : Bool) (dd : ℕ) (j : ImportJob) : ImportJob :=
  { j with userEmails := e, sendInvites := si, delayInSeconds := dd }

/- Kernel-computable models of the JS string primitives used by the
pages: String.prototype.trim, split on a single character, and includes
of a single character.  A Lean String is a structure over its List Char
data, so these agree with the intended library semantics while staying
executable for the kernel. -/
def jsTrim (s : String) : String :=
  ⟨((s.data.dropWhile Char.isWhitespace).reverse.dropWhile Char.isWhitespace).reverse⟩

def jsSplitAux (p : Char → Bool) : List Char → List Char → List (List Char)
  | [], acc => [acc.reverse]
  | c :: cs, acc =>
      if p c then acc.reverse :: jsSplitAux p cs []
      else jsSplitAux p cs (c :: acc)

def jsSplit (s : String) (p : Char → Bool) : List String :=
  (jsSplitAux p s.data []).map (fun l => (⟨l⟩ : String))

def jsContains (s : String) (c : Char) : Bool :=
  s.data.contains c

/- parseUserData of the BulkImport page (src/unnamed/part_001, lines 538
to 544): split lines, drop blank ones, split fields on commas, then keep
only records whose email is nonempty and contains an at sign. -/
def parseLine (line : String) : BulkUserData :=
  let parts := (jsSplit line (fun c => c = ',')).map jsTrim
  { email := parts.getD 0 ""
    firstName := parts.getD 1 ""
    lastName := parts.getD 2 ""
    password := parts.getD 3 "" }

def parseUserData (text : String) : List BulkUserData :=
  ((((jsSplit (jsTrim text) (fun c => c = '\n')).filter
      (fun l => jsTrim l != "")).map parseLine).filter
    (fun u => u.email != "" && jsContains u.email '@'))

inductive StartOutcome
  | noAccount
  | invalidData
  | missingPasswords
  | started
deriving DecidableEq

/- handleStartImport of the BulkImport page, lines 578 to 590: validation
happens before startImportJob is invoked; a rejection leaves the store
untouched and produces no events. -/
def handleStartImport (activeAccount : Option String) (store : JobStore)
    (env : RunEnv) : StartOutcome × JobStore × List Event :=
  match activeAccount with
  | none => (.noAccount, store, [])
  | some a =>
      let job := getJob store a
      let users := parseUserData job.userEmails
      if users = [] then (.invalidData, store, [])
      else if !job.sendInvites && users.any (fun u => u.password == "") then
        (.missingPasswords, store, [])
      else
        let r := startImportJob store env a users
        (.started, r.1, r.2)

/- UI guards of the BulkImport page, lines 627, 702 to 714: the start
section renders only for idle, stopped or completed status; the pause
button renders in the other branch when not paused; the resume button
when paused. -/
def isJobRunning (j : ImportJob) : Bool :=
  j.status == .running || j.status == .paused

def startControlsShown (j : ImportJob) : Bool :=
  j.status == .idle || j.status == .stopped || j.status == .completed

def startButtonEnabled (j : ImportJob) : Bool :=
  !(isJobRunning j) && !(jsTrim j.userEmails == "")

def pauseButtonShown (j : ImportJob) : Bool :=
  !(startControlsShown j) && !(j.status == .paused)

def resumeButtonShown (j : ImportJob) : Bool :=
  !(startControlsShown j) && (j.status == .paused)

/- Trace projections used in the statements. -/
def progressTrace (evs : List Event) : List ℚ :=
  evs.filterMap (fun e => match e with | .publish j => some j.progress | _ => none)

def cdValues (evs : List Event) : List ℕ :=
  evs.filterMap (fun e => match e with | .publish j => some j.countdown | _ => none)

def callsOf (evs : List Event) : List Event :=
  evs.filter (fun e => match e with | .remoteCall _ _ _ => true | _ => false)

/- Derived characterization of a completed pass over a record suffix:
one processRecord result per record, in input order. -/
def processedFrom (env : RunEnv) : ℕ → List BulkUserData → List UserOperationResult
  | _, [] => []
  | i, u :: rest => processRecord u (env.outcome i) :: processedFrom env (i + 1) rest

/- Interleaving model for updateJobSettings during a run: before each
iteration the environment may merge new configuration values into the
stored job, exactly what a concurrent setter click does between two
awaits of the loop. -/
def applySettingsUpd (o : Option (String × Bool × ℕ)) (j : ImportJob) : ImportJob :=
  match o with
  | none => j
  | some (e, si, dd) => settingsUpdate e si dd j

def runLoopU (a : String) (env : RunEnv) (upd : ℕ → Option (String × Bool × ℕ))
    (d : ℕ) (inv : Bool) (n : ℕ) :
    List BulkUserData → ℕ → List UserOperationResult → ImportJob → ImportJob × List Event
  | [], _, _, j => (j, [])
  | u :: rest, i, acc, j =>
      let jU := applySettingsUpd (upd i) j
      if env.stopTop i then (jU, [])
      else if env.stopPost i then (jU, [])
      else
        let cd := if 0 < i ∧ 0 < d then countdownPhase jU u.email d else (jU, [])
        let r := processRecord u (env.outcome i)
        let acc' := acc ++ [r]
        let j2 := recordStep cd.1 acc' r i n
        let rest' := runLoopU a env upd d inv n rest (i + 1) acc' j2
        (rest'.1, cd.2 ++ Event.remoteCall a u inv :: Event.publish j2 :: rest'.2)

def startImportJobU (store : JobStore) (env : RunEnv)
    (upd : ℕ → Option (String × Bool × ℕ)) (a : String)
    (users : List BulkUserData) : JobStore × List Event :=
  let settings := getJob store a
  let j0 := startReset settings
  let run := runLoopU a env upd settings.delayInSeconds settings.sendInvites
    users.length users 0 [] j0
  let jf := { run.1 with status := if env.stopFinal then JobStatus.stopped else .completed }
  (setJob store a jf, Event.publish j0 :: run.2 ++ [Event.publish jf])

/- Normalizes the configuration fields of published states, so that two
traces agree after configScrub exactly when they agree on everything the
run loop itself writes. -/
def configScrub (j : ImportJob) : ImportJob :=
  { j with userEmails := "", sendInvites := true, delayInSeconds := 0 }

def scrubEvent : Event → Event
  | .publish j => .publish (configScrub j)
  | e => e

/- Concrete instances for counterexamples and witnesses. -/

def uA : BulkUserData :=
  { email := "a@x.com", firstName := "A", lastName := "One", password := "p1" }

def uB : BulkUserData :=
  { email := "b@x.com", firstName := "B", lastName := "Two", password := "p2" }

def rPrev : UserOperationResult :=
  { email := "old@x.com", status := .success, message := "User created", userId := none }

def runningJob : ImportJob :=
  { initialJobState with status := .running, results := [rPrev], successCount := 1, progress := 50 }

def doneJob : ImportJob :=
  { initialJobState with status := .completed, results := [rPrev], successCount := 1, progress := 100 }

def ceStore : JobStore := fun b => if b = "acct" then some runningJob else none

def ceStore3 : JobStore := fun b => if b = "acct" then some doneJob else none

def ceRefs : RefStore :=
  fun b => if b = "acct" then some { isPaused := false, isStopped := false } else none

def startableJob : ImportJob :=
  { initialJobState with userEmails := "a@x.com,A,One" }

def quietEnv : RunEnv :=
  { stopTop := fun _ => false
    stopPost := fun _ => false
    outcome := fun _ => RemoteOutcome.networkError
    stopFinal := false }

def stopAfterOneEnv : RunEnv :=
  { stopTop := fun k => decide (1 ≤ k)
    stopPost := fun k => decide (1 ≤ k)
    outcome := fun _ => RemoteOutcome.networkError
    stopFinal := true }

def emptyStore : JobStore := fun _ => none

def invalidTextStore : JobStore :=
  fun b => if b = "acct" then some { initialJobState with userEmails := "not-an-email" } else none

def delayedStore : JobStore :=
  fun b => if b = "acct" then some { initialJobState with delayInSeconds := 2 } else none

/- Helper lemmas. -/

theorem countdownRun_spec : ∀ (fuel : ℕ) (j : ImportJob),
    countdownRun j fuel =
      ({ j with countdown := j.countdown - fuel },
       (List.range fuel).map
         (fun t => Event.publish { j with countdown := j.countdown - (t + 1) }))
  | 0, j => rfl
  | fuel + 1, j => by
      have ih := countdownRun_spec fuel { j with countdown := j.countdown - 1 }
      simp only [countdownRun, ih]
      refine Prod.ext ?_ ?_
      · show ({ j with countdown := j.countdown - 1 - fuel } : ImportJob) =
          { j with countdown := j.countdown - (fuel + 1) }
        have hc : j.countdown - 1 - fuel = j.countdown - (fuel + 1) := by omega
        rw [hc]
      · show Event.publish { j with countdown := j.countdown - 1 } ::
            (List.range fuel).map
              (fun t => Event.publish { j with countdown := j.countdown - 1 - (t + 1) }) =
          (List.range (fuel + 1)).map
            (fun t => Event.publish { j with countdown := j.countdown - (t + 1) })
        rw [List.range_succ_eq_map, List.map_cons, List.map_map]
        have hf : (fun t => Event.publish { j with countdown := j.countdown - 1 - (t + 1) }) =
            ((fun t => Event.publish { j with countdown := j.countdown - (t + 1) }) ∘ Nat.succ) := by
          funext t
          show Event.publish _ = Event.publish _
          have hc : j.countdown - 1 - (t + 1) = j.countdown - (t + 1 + 1) := by omega
          rw [hc]
        rw [hf]

theorem countdownPhase_spec (j : ImportJob) (email : String) (d : ℕ) :
    countdownPhase j email d =
      ({ j with nextUserEmail := none, countdown := 0 },
       Event.publish { j with nextUserEmail := some email, countdown := d } ::
         (List.range d).map
           (fun t => Event.publish { j with nextUserEmail := some email, countdown := d - (t + 1) }) ++
         [Event.publish { j with nextUserEmail := none, countdown := 0 }]) := by
  simp only [countdownPhase, countdownRun_spec, Nat.sub_self]

theorem countdownPhase_publish_shape (j : ImportJob) (email : String) (d : ℕ) :
    ∀ e ∈ (countdownPhase j email d).2, ∃ x y,
      e = Event.publish { j with nextUserEmail := x, countdown := y } := by
  rw [countdownPhase_spec]
  intro e he
  simp only [List.mem_cons, List.mem_append, List.mem_map, List.mem_singleton] at he
  rcases he with (rfl | ⟨t, ht, rfl⟩) | (rfl | h)
  · exact ⟨some email, d, rfl⟩
  · exact ⟨some email, d - (t + 1), rfl⟩
  · exact ⟨none, 0, rfl⟩
  · exact absurd h (List.not_mem_nil e)

theorem countdownPhase_publish_fields (j : ImportJob) (email : String) (d : ℕ) :
    ∀ jj : ImportJob, Event.publish jj ∈ (countdownPhase j email d).2 →
      jj.results = j.results ∧ jj.successCount = j.successCount ∧
      jj.failCount = j.failCount ∧ jj.progress = j.progress := by
  intro jj h
  obtain ⟨x, y, hx⟩ := countdownPhase_publish_shape j email d _ h
  injection hx with hx
  subst hx
  exact ⟨rfl, rfl, rfl, rfl⟩

theorem countdownPhase_fst (j : ImportJob) (email : String) (d : ℕ) :
    (countdownPhase j email d).1 = { j with nextUserEmail := none, countdown := 0 } := by
  rw [countdownPhase_spec]

theorem callsOf_append (l1 l2 : List Event) :
    callsOf (l1 ++ l2) = callsOf l1 ++ callsOf l2 := by
  simp [callsOf]

theorem callsOf_publish_cons (j : ImportJob) (l : List Event) :
    callsOf (Event.publish j :: l) = callsOf l := by
  simp [callsOf]

theorem callsOf_call_cons (a : String) (u : BulkUserData) (inv : Bool) (l : List Event) :
    callsOf (Event.remoteCall a u inv :: l) = Event.remoteCall a u inv :: callsOf l := by
  simp [callsOf]

theorem callsOf_countdownPhase (j : ImportJob) (email : String) (d : ℕ) :
    callsOf (countdownPhase j email d).2 = [] := by
  rw [countdownPhase_spec]
  simp [callsOf, List.filter_map]

theorem progressTrace_append (l1 l2 : List Event) :
    progressTrace (l1 ++ l2) = progressTrace l1 ++ progressTrace l2 := by
  simp [progressTrace]

theorem progressTrace_publish_cons (j : ImportJob) (l : List Event) :
    progressTrace (Event.publish j :: l) = j.progress :: progressTrace l := by
  simp [progressTrace]

theorem progressTrace_call_cons (a : String) (u : BulkUserData) (inv : Bool) (l : List Event) :
    progressTrace (Event.remoteCall a u inv :: l) = progressTrace l := by
  simp [progressTrace]

theorem progressTrace_nil : progressTrace [] = [] := rfl

theorem cdValues_nil : cdValues [] = [] := rfl

theorem callsOf_nil : callsOf [] = [] := rfl

theorem progressTrace_countdownPhase_mem (j : ImportJob) (email : String) (d : ℕ) :
    ∀ p ∈ progressTrace (countdownPhase j email d).2, p = j.progress := by
  intro p hp
  simp only [progressTrace, List.mem_filterMap] at hp
  obtain ⟨e, he, hpe⟩ := hp
  obtain ⟨x, y, rfl⟩ := countdownPhase_publish_shape j email d e he
  simp only [Option.some.injEq] at hpe
  exact hpe.symm

theorem pairwise_le_of_all_eq {l : List ℚ} {c : ℚ} (h : ∀ x ∈ l, x = c) :
    List.Pairwise (fun p q => p ≤ q) l := by
  induction l with
  | nil => exact List.Pairwise.nil
  | cons x l ih =>
      rw [List.pairwise_cons]
      constructor
      · intro y hy
        rw [h x (by simp), h y (by simp [hy])]
      · exact ih (fun z hz => h z (by simp [hz]))

theorem runLoop_nil (a : String) (env : RunEnv) (d : ℕ) (inv : Bool) (n i : ℕ)
    (acc : List UserOperationResult) (j : ImportJob) :
    runLoop a env d inv n [] i acc j = (j, []) := rfl

theorem runLoop_stopped (a : String) (env : RunEnv) (d : ℕ) (inv : Bool) (n i : ℕ)
    (acc : List UserOperationResult) (j : ImportJob) (rest : List BulkUserData)
    (h : env.stopTop i = true) :
    runLoop a env d inv n rest i acc j = (j, []) := by
  cases rest with
  | nil => rfl
  | cons u rest => simp [runLoop, h]

theorem countdownPhase_snd (j : ImportJob) (email : String) (d : ℕ) :
    (countdownPhase j email d).2 =
      Event.publish { j with nextUserEmail := some email, countdown := d } ::
        ((List.range d).map
          (fun t => Event.publish { j with nextUserEmail := some email, countdown := d - (t + 1) }) ++
         [Event.publish { j with nextUserEmail := none, countdown := 0 }]) :=
  congrArg Prod.snd (countdownPhase_spec j email d)

theorem cdValues_countdownPhase (j : ImportJob) (email : String) (d : ℕ) :
    cdValues (countdownPhase j email d).2 =
      d :: (List.range d).map (fun t => d - (t + 1)) ++ [0] := by
  rw [countdownPhase_snd]
  simp only [cdValues, List.filterMap_cons, List.filterMap_append, List.filterMap_map]
  exact congrArg (fun l => _ :: (l ++ [0]))
    (congrFun (List.filterMap_eq_map (fun t => d - (t + 1))) (List.range d))

theorem countdownPhase_head (j : ImportJob) (email : String) (d : ℕ) :
    (countdownPhase j email d).2.head? =
      some (Event.publish { j with nextUserEmail := some email, countdown := d }) := by
  rw [countdownPhase_snd]
  rfl

theorem countdownPhase_last (j : ImportJob) (email : String) (d : ℕ) :
    (countdownPhase j email d).2.getLast? =
      some (Event.publish { j with nextUserEmail := none, countdown := 0 }) := by
  rw [countdownPhase_snd, ← List.cons_append, List.getLast?_concat]

theorem runLoop_go (a : String) (env : RunEnv) (d : ℕ) (inv : Bool) (n : ℕ)
    (u : BulkUserData) (rest : List BulkUserData) (i : ℕ)
    (acc : List UserOperationResult) (j : ImportJob)
    (hT : env.stopTop i = false) (hP : env.stopPost i = false) :
    runLoop a env d inv n (u :: rest) i acc j =
      ((runLoop a env d inv n rest (i + 1) (acc ++ [processRecord u (env.outcome i)])
          (recordStep (if 0 < i ∧ 0 < d then countdownPhase j u.email d else (j, [])).1
            (acc ++ [processRecord u (env.outcome i)])
            (processRecord u (env.outcome i)) i n)).1,
       (if 0 < i ∧ 0 < d then countdownPhase j u.email d else (j, [])).2 ++
         Event.remoteCall a u inv ::
           Event.publish
             (recordStep (if 0 < i ∧ 0 < d then countdownPhase j u.email d else (j, [])).1
               (acc ++ [processRecord u (env.outcome i)])
               (processRecord u (env.outcome i)) i n) ::
           (runLoop a env d inv n rest (i + 1) (acc ++ [processRecord u (env.outcome i)])
             (recordStep (if 0 < i ∧ 0 < d then countdownPhase j u.email d else (j, [])).1
               (acc ++ [processRecord u (env.outcome i)])
               (processRecord u (env.outcome i)) i n)).2) := by
  simp only [runLoop, hT, hP, Bool.false_eq_true, if_false]

theorem runLoop_go_fst (a : String) (env : RunEnv) (d : ℕ) (inv : Bool) (n : ℕ)
    (u : BulkUserData) (rest : List BulkUserData) (i : ℕ)
    (acc : List UserOperationResult) (j : ImportJob)
    (hT : env.stopTop i = false) (hP : env.stopPost i = false) :
    (runLoop a env d inv n (u :: rest) i acc j).1 =
      (runLoop a env d inv n rest (i + 1) (acc ++ [processRecord u (env.outcome i)])
        (recordStep (if 0 < i ∧ 0 < d then countdownPhase j u.email d else (j, [])).1
          (acc ++ [processRecord u (env.outcome i)])
          (processRecord u (env.outcome i)) i n)).1 := by
  rw [runLoop_go a env d inv n u rest i acc j hT hP]

theorem runLoop_go_snd (a : String) (env : RunEnv) (d : ℕ) (inv : Bool) (n : ℕ)
    (u : BulkUserData) (rest : List BulkUserData) (i : ℕ)
    (acc : List UserOperationResult) (j : ImportJob)
    (hT : env.stopTop i = false) (hP : env.stopPost i = false) :
    (runLoop a env d inv n (u :: rest) i acc j).2 =
      (if 0 < i ∧ 0 < d then countdownPhase j u.email d else (j, [])).2 ++
        Event.remoteCall a u inv ::
          Event.publish
            (recordStep (if 0 < i ∧ 0 < d then countdownPhase j u.email d else (j, [])).1
              (acc ++ [processRecord u (env.outcome i)])
              (processRecord u (env.outcome i)) i n) ::
          (runLoop a env d inv n rest (i + 1) (acc ++ [processRecord u (env.outcome i)])
            (recordStep (if 0 < i ∧ 0 < d then countdownPhase j u.email d else (j, [])).1
              (acc ++ [processRecord u (env.outcome i)])
              (processRecord u (env.outcome i)) i n)).2 := by
  rw [runLoop_go a env d inv n u rest i acc j hT hP]

theorem runLoop_stopPost (a : String) (env : RunEnv) (d : ℕ) (inv : Bool) (n : ℕ)
    (u : BulkUserData) (rest : List BulkUserData) (i : ℕ)
    (acc : List UserOperationResult) (j : ImportJob)
    (hT : env.stopTop i = false) (hP : env.stopPost i = true) :
    runLoop a env d inv n (u :: rest) i acc j = (j, []) := by
  simp [runLoop, hT, hP]

theorem recordStep_results (j : ImportJob) (acc : List UserOperationResult)
    (r : UserOperationResult) (i n : ℕ) : (recordStep j acc r i n).results = acc := rfl

theorem recordStep_sum (j : ImportJob) (acc : List UserOperationResult)
    (r : UserOperationResult) (i n : ℕ) :
    (recordStep j acc r i n).successCount + (recordStep j acc r i n).failCount =
      j.successCount + j.failCount + 1 := by
  cases hr : r.status <;> simp [recordStep, hr] <;> omega

theorem cdFst_results (j : ImportJob) (u : BulkUserData) (i d : ℕ) :
    ((if 0 < i ∧ 0 < d then countdownPhase j u.email d else (j, [])).1).results = j.results := by
  by_cases h : 0 < i ∧ 0 < d <;> simp [h, countdownPhase_fst]

theorem cdFst_successCount (j : ImportJob) (u : BulkUserData) (i d : ℕ) :
    ((if 0 < i ∧ 0 < d then countdownPhase j u.email d else (j, [])).1).successCount =
      j.successCount := by
  by_cases h : 0 < i ∧ 0 < d <;> simp [h, countdownPhase_fst]

theorem cdFst_failCount (j : ImportJob) (u : BulkUserData) (i d : ℕ) :
    ((if 0 < i ∧ 0 < d then countdownPhase j u.email d else (j, [])).1).failCount =
      j.failCount := by
  by_cases h : 0 < i ∧ 0 < d <;> simp [h, countdownPhase_fst]

theorem cdSnd_publish_fields (j : ImportJob) (u : BulkUserData) (i d : ℕ) :
    ∀ jj : ImportJob,
      Event.publish jj ∈ ((if 0 < i ∧ 0 < d then countdownPhase j u.email d else (j, [])).2) →
      jj.results = j.results ∧ jj.successCount = j.successCount ∧
      jj.failCount = j.failCount ∧ jj.progress = j.progress := by
  by_cases h : 0 < i ∧ 0 < d
  · simp only [h, if_true]
    exact countdownPhase_publish_fields j u.email d
  · simp [h]

theorem runLoop_publish_sum (a : String) (env : RunEnv) (d : ℕ) (inv : Bool) (n : ℕ) :
    ∀ (rest : List BulkUserData) (i : ℕ) (acc : List UserOperationResult) (j : ImportJob),
      j.results = acc → j.successCount + j.failCount = acc.length →
      ∀ jj : ImportJob, Event.publish jj ∈ (runLoop a env d inv n rest i acc j).2 →
        jj.successCount + jj.failCount = jj.results.length := by
  intro rest
  induction rest with
  | nil =>
      intro i acc j h1 h2 jj hjj
      rw [runLoop_nil] at hjj
      exact absurd hjj (List.not_mem_nil _)
  | cons u rest ih =>
      intro i acc j h1 h2 jj hjj
      cases hT : env.stopTop i with
      | true =>
          rw [runLoop_stopped a env d inv n i acc j (u :: rest) hT] at hjj
          exact absurd hjj (List.not_mem_nil _)
      | false =>
          cases hP : env.stopPost i with
          | true =>
              rw [runLoop_stopPost a env d inv n u rest i acc j hT hP] at hjj
              exact absurd hjj (List.not_mem_nil _)
          | false =>
              rw [runLoop_go a env d inv n u rest i acc j hT hP] at hjj
              simp only [List.mem_append, List.mem_cons] at hjj
              rcases hjj with hcd | hrc | hstep | hrest
              · obtain ⟨hr, hs, hf, _⟩ := cdSnd_publish_fields j u i d jj hcd
                rw [hs, hf, hr, h1]
                exact h2
              · exact absurd hrc (by simp)
              · injection hstep with hstep
                subst hstep
                rw [recordStep_results, recordStep_sum, cdFst_successCount, cdFst_failCount]
                simp [h2]
              · exact ih (i + 1) (acc ++ [processRecord u (env.outcome i)]) _
                  (recordStep_results _ _ _ _ _)
                  (by rw [recordStep_sum, cdFst_successCount, cdFst_failCount]; simp [h2]) jj hrest

theorem processedFrom_length (env : RunEnv) : ∀ (i : ℕ) (l : List BulkUserData),
    (processedFrom env i l).length = l.length
  | _, [] => rfl
  | i, _ :: rest => by
      simp [processedFrom, processedFrom_length env (i + 1) rest]

theorem runLoop_noStop_results (a : String) (env : RunEnv) (d : ℕ) (inv : Bool) (n : ℕ)
    (hT : ∀ k, env.stopTop k = false) (hP : ∀ k, env.stopPost k = false) :
    ∀ (rest : List BulkUserData) (i : ℕ) (acc : List UserOperationResult) (j : ImportJob),
      j.results = acc →
      (runLoop a env d inv n rest i acc j).1.results = acc ++ processedFrom env i rest := by
  intro rest
  induction rest with
  | nil =>
      intro i acc j h
      rw [runLoop_nil]
      simp [processedFrom, h]
  | cons u rest ih =>
      intro i acc j h
      rw [runLoop_go a env d inv n u rest i acc j (hT i) (hP i)]
      rw [ih (i + 1) _ _ (recordStep_results _ _ _ _ _)]
      simp [processedFrom]

theorem runLoop_noStop_sum (a : String) (env : RunEnv) (d : ℕ) (inv : Bool) (n : ℕ)
    (hT : ∀ k, env.stopTop k = false) (hP : ∀ k, env.stopPost k = false) :
    ∀ (rest : List BulkUserData) (i : ℕ) (acc : List UserOperationResult) (j : ImportJob),
      (runLoop a env d inv n rest i acc j).1.successCount +
          (runLoop a env d inv n rest i acc j).1.failCount =
        j.successCount + j.failCount + rest.length := by
  intro rest
  induction rest with
  | nil =>
      intro i acc j
      rw [runLoop_nil]
      simp
  | cons u rest ih =>
      intro i acc j
      rw [runLoop_go a env d inv n u rest i acc j (hT i) (hP i)]
      rw [ih (i + 1)]
      rw [recordStep_sum, cdFst_successCount, cdFst_failCount]
      simp
      omega

theorem runLoop_noStop_progress (a : String) (env : RunEnv) (d : ℕ) (inv : Bool) (n : ℕ)
    (hT : ∀ k, env.stopTop k = false) (hP : ∀ k, env.stopPost k = false) :
    ∀ (rest : List BulkUserData) (i : ℕ) (acc : List UserOperationResult) (j : ImportJob),
      rest ≠ [] →
      (runLoop a env d inv n rest i acc j).1.progress =
        ((i : ℚ) + rest.length) / (n : ℚ) * 100 := by
  intro rest
  induction rest with
  | nil => intro i acc j h; exact absurd rfl h
  | cons u rest ih =>
      intro i acc j _
      rw [runLoop_go a env d inv n u rest i acc j (hT i) (hP i)]
      cases rest with
      | nil =>
          rw [runLoop_nil]
          show (recordStep _ _ _ i n).progress = _
          simp [recordStep]
      | cons v rest' =>
          rw [ih (i + 1) _ _ (by simp)]
          simp only [List.length_cons]
          push_cast
          ring

theorem callsOf_cdSnd (j : ImportJob) (u : BulkUserData) (i d : ℕ) :
    callsOf ((if 0 < i ∧ 0 < d then countdownPhase j u.email d else (j, [])).2) = [] := by
  by_cases h : 0 < i ∧ 0 < d
  · rw [if_pos h]
    exact callsOf_countdownPhase j u.email d
  · rw [if_neg h]
    rfl

theorem runLoop_noStop_calls (a : String) (env : RunEnv) (d : ℕ) (inv : Bool) (n : ℕ)
    (hT : ∀ k, env.stopTop k = false) (hP : ∀ k, env.stopPost k = false) :
    ∀ (rest : List BulkUserData) (i : ℕ) (acc : List UserOperationResult) (j : ImportJob),
      callsOf (runLoop a env d inv n rest i acc j).2 =
        rest.map (fun u => Event.remoteCall a u inv) := by
  intro rest
  induction rest with
  | nil => intro i acc j; rw [runLoop_nil]; rfl
  | cons u rest ih =>
      intro i acc j
      rw [runLoop_go a env d inv n u rest i acc j (hT i) (hP i)]
      show callsOf (_ ++ Event.remoteCall a u inv :: Event.publish _ :: _) = _
      rw [callsOf_append, callsOf_cdSnd, callsOf_call_cons, callsOf_publish_cons, ih (i + 1)]
      simp

theorem runLoop_results_le (a : String) (env : RunEnv) (d : ℕ) (inv : Bool) (n : ℕ) :
    ∀ (rest : List BulkUserData) (i : ℕ) (acc : List UserOperationResult) (j : ImportJob),
      j.results = acc →
      (runLoop a env d inv n rest i acc j).1.results.length ≤ acc.length + rest.length := by
  intro rest
  induction rest with
  | nil =>
      intro i acc j h
      rw [runLoop_nil]
      simp [h]
  | cons u rest ih =>
      intro i acc j h
      cases hT : env.stopTop i with
      | true =>
          rw [runLoop_stopped a env d inv n i acc j (u :: rest) hT]
          simp [h]
      | false =>
          cases hP : env.stopPost i with
          | true =>
              rw [runLoop_stopPost a env d inv n u rest i acc j hT hP]
              simp [h]
          | false =>
              rw [runLoop_go a env d inv n u rest i acc j hT hP]
              have := ih (i + 1) (acc ++ [processRecord u (env.outcome i)])
                (recordStep (if 0 < i ∧ 0 < d then countdownPhase j u.email d else (j, [])).1
                  (acc ++ [processRecord u (env.outcome i)])
                  (processRecord u (env.outcome i)) i n)
                (recordStep_results _ _ _ _ _)
              simp only [List.length_append, List.length_cons, List.length_nil] at this ⊢
              omega

theorem runLoop_stopAt (a : String) (env : RunEnv) (d : ℕ) (inv : Bool) (n : ℕ) :
    ∀ (t : ℕ) (rest : List BulkUserData) (i : ℕ) (acc : List UserOperationResult) (j : ImportJob),
      (∀ k, k ≤ i + t → env.stopTop k = false ∧ env.stopPost k = false) →
      env.stopTop (i + t + 1) = true → t < rest.length → j.results = acc →
      (runLoop a env d inv n rest i acc j).1.results =
        acc ++ processedFrom env i (rest.take (t + 1)) ∧
      callsOf (runLoop a env d inv n rest i acc j).2 =
        (rest.take (t + 1)).map (fun u => Event.remoteCall a u inv) := by
  intro t
  induction t with
  | zero =>
      intro rest i acc j hpre hstop hlen hres
      cases rest with
      | nil => simp at hlen
      | cons u rest =>
          obtain ⟨hT, hP⟩ := hpre i (by omega)
          rw [runLoop_go a env d inv n u rest i acc j hT hP]
          have hstop' : env.stopTop (i + 1) = true := by
            have hh : i + 1 = i + 0 + 1 := by omega
            rw [hh]
            exact hstop
          rw [runLoop_stopped a env d inv n (i + 1) _ _ rest hstop']
          constructor
          · simp [recordStep_results, processedFrom]
          · rw [callsOf_append, callsOf_cdSnd, callsOf_call_cons, callsOf_publish_cons]
            simp [callsOf]
  | succ t ih =>
      intro rest i acc j hpre hstop hlen hres
      cases rest with
      | nil => simp at hlen
      | cons u rest =>
          obtain ⟨hT, hP⟩ := hpre i (by omega)
          rw [runLoop_go a env d inv n u rest i acc j hT hP]
          have h1 : ∀ k, k ≤ (i + 1) + t → env.stopTop k = false ∧ env.stopPost k = false := by
            intro k hk
            exact hpre k (by omega)
          have h2 : env.stopTop ((i + 1) + t + 1) = true := by
            have hh : (i + 1) + t + 1 = i + (t + 1) + 1 := by omega
            rw [hh]
            exact hstop
          have h3 : t < rest.length := by
            simp only [List.length_cons] at hlen
            omega
          obtain ⟨hres', hcalls'⟩ := ih rest (i + 1) _ _ h1 h2 h3 (recordStep_results _ _ _ _ _)
          constructor
          · rw [hres']
            simp [processedFrom]
          · rw [callsOf_append, callsOf_cdSnd, callsOf_call_cons, callsOf_publish_cons, hcalls']
            simp

theorem runLoop_cd_decomp (a : String) (env : RunEnv) (d : ℕ) (inv : Bool) (n : ℕ)
    (hd : 0 < d) :
    ∀ (m : ℕ) (rest : List BulkUserData) (i : ℕ) (acc : List UserOperationResult)
      (j : ImportJob) (hm : m < rest.length),
      (∀ k, k ≤ i + m → env.stopTop k = false ∧ env.stopPost k = false) →
      0 < i + m →
      ∃ p s j1, (runLoop a env d inv n rest i acc j).2 =
        p ++ (countdownPhase j1 (rest.get ⟨m, hm⟩).email d).2 ++
          Event.remoteCall a (rest.get ⟨m, hm⟩) inv :: s := by
  intro m
  induction m with
  | zero =>
      intro rest i acc j hm hpre hpos
      cases rest with
      | nil => simp at hm
      | cons u rest =>
          obtain ⟨hT, hP⟩ := hpre i (by omega)
          rw [runLoop_go a env d inv n u rest i acc j hT hP]
          have hi : 0 < i := by omega
          rw [if_pos ⟨hi, hd⟩]
          refine ⟨[], Event.publish (recordStep (countdownPhase j u.email d).1
              (acc ++ [processRecord u (env.outcome i)])
              (processRecord u (env.outcome i)) i n) ::
            (runLoop a env d inv n rest (i + 1) (acc ++ [processRecord u (env.outcome i)])
              (recordStep (countdownPhase j u.email d).1
                (acc ++ [processRecord u (env.outcome i)])
                (processRecord u (env.outcome i)) i n)).2, j, ?_⟩
          simp
  | succ m ih =>
      intro rest i acc j hm hpre hpos
      cases rest with
      | nil => simp at hm
      | cons u rest =>
          obtain ⟨hT, hP⟩ := hpre i (by omega)
          rw [runLoop_go a env d inv n u rest i acc j hT hP]
          have hm' : m < rest.length := by
            simp only [List.length_cons] at hm
            omega
          have h1 : ∀ k, k ≤ (i + 1) + m → env.stopTop k = false ∧ env.stopPost k = false := by
            intro k hk
            exact hpre k (by omega)
          obtain ⟨p, s, j1, hdec⟩ := ih rest (i + 1) _ _ hm' h1 (by omega)
          refine ⟨(if 0 < i ∧ 0 < d then countdownPhase j u.email d else (j, [])).2 ++
            Event.remoteCall a u inv ::
              Event.publish (recordStep
                (if 0 < i ∧ 0 < d then countdownPhase j u.email d else (j, [])).1
                (acc ++ [processRecord u (env.outcome i)])
                (processRecord u (env.outcome i)) i n) :: p, s, j1, ?_⟩
          rw [hdec]
          simp

theorem runLoop_cd0_publish (a : String) (env : RunEnv) (inv : Bool) (n : ℕ) :
    ∀ (rest : List BulkUserData) (i : ℕ) (acc : List UserOperationResult) (j : ImportJob),
      j.countdown = 0 → j.nextUserEmail = none →
      ∀ jj : ImportJob, Event.publish jj ∈ (runLoop a env 0 inv n rest i acc j).2 →
        jj.countdown = 0 ∧ jj.nextUserEmail = none := by
  intro rest
  induction rest with
  | nil =>
      intro i acc j h1 h2 jj hjj
      rw [runLoop_nil] at hjj
      exact absurd hjj (List.not_mem_nil _)
  | cons u rest ih =>
      intro i acc j h1 h2 jj hjj
      cases hT : env.stopTop i with
      | true =>
          rw [runLoop_stopped a env 0 inv n i acc j (u :: rest) hT] at hjj
          exact absurd hjj (List.not_mem_nil _)
      | false =>
          cases hP : env.stopPost i with
          | true =>
              rw [runLoop_stopPost a env 0 inv n u rest i acc j hT hP] at hjj
              exact absurd hjj (List.not_mem_nil _)
          | false =>
              rw [runLoop_go a env 0 inv n u rest i acc j hT hP] at hjj
              rw [if_neg (by simp)] at hjj
              simp only [List.nil_append, List.mem_cons] at hjj
              rcases hjj with hrc | hstep | hrest
              · exact absurd hrc (by simp)
              · injection hstep with hstep
                subst hstep
                exact ⟨h1, h2⟩
              · exact ih (i + 1) (acc ++ [processRecord u (env.outcome i)])
                  (recordStep j (acc ++ [processRecord u (env.outcome i)])
                    (processRecord u (env.outcome i)) i n) h1 h2 jj hrest

theorem runLoop_first_call (a : String) (env : RunEnv) (d : ℕ) (inv : Bool) (n : ℕ)
    (u : BulkUserData) (rest : List BulkUserData) (acc : List UserOperationResult)
    (j : ImportJob) (hT : env.stopTop 0 = false) (hP : env.stopPost 0 = false) :
    ((runLoop a env d inv n (u :: rest) 0 acc j).2).head? =
      some (Event.remoteCall a u inv) := by
  rw [runLoop_go a env d inv n u rest 0 acc j hT hP]
  rw [if_neg (by simp)]
  rfl

theorem qdiv_mono (x y n : ℕ) (hn : 0 < n) (h : x ≤ y) :
    (x : ℚ) / (n : ℚ) * 100 ≤ (y : ℚ) / (n : ℚ) * 100 := by
  have hn' : (0 : ℚ) < (n : ℚ) := by exact_mod_cast hn
  have hx : (x : ℚ) ≤ (y : ℚ) := by exact_mod_cast h
  gcongr

theorem qdiv_le_100 (x n : ℕ) (hn : 0 < n) (h : x ≤ n) :
    (x : ℚ) / (n : ℚ) * 100 ≤ 100 := by
  have hn' : (0 : ℚ) < (n : ℚ) := by exact_mod_cast hn
  have hx : (x : ℚ) ≤ (n : ℚ) := by exact_mod_cast h
  have h1 : (x : ℚ) / (n : ℚ) ≤ 1 := by
    rw [div_le_one hn']
    exact hx
  calc (x : ℚ) / (n : ℚ) * 100 ≤ 1 * 100 := by
        apply mul_le_mul_of_nonneg_right h1
        norm_num
    _ = 100 := by norm_num

theorem progressTrace_cdSnd_mem (j : ImportJob) (u : BulkUserData) (i d : ℕ) :
    ∀ p ∈ progressTrace ((if 0 < i ∧ 0 < d then countdownPhase j u.email d else (j, [])).2),
      p = j.progress := by
  by_cases h : 0 < i ∧ 0 < d
  · rw [if_pos h]
    exact progressTrace_countdownPhase_mem j u.email d
  · rw [if_neg h]
    intro p hp
    simp [progressTrace] at hp

theorem runLoop_progress_pairwise (a : String) (env : RunEnv) (d : ℕ) (inv : Bool) (n : ℕ)
    (hn : 0 < n) :
    ∀ (rest : List BulkUserData) (i : ℕ) (acc : List UserOperationResult) (j : ImportJob),
      i + rest.length ≤ n → j.progress = (i : ℚ) / (n : ℚ) * 100 →
      List.Pairwise (fun p q => p ≤ q) (progressTrace (runLoop a env d inv n rest i acc j).2) ∧
      (∀ p ∈ progressTrace (runLoop a env d inv n rest i acc j).2,
        j.progress ≤ p ∧ p ≤ 100 ∧ p ≤ (runLoop a env d inv n rest i acc j).1.progress) ∧
      j.progress ≤ (runLoop a env d inv n rest i acc j).1.progress ∧
      (runLoop a env d inv n rest i acc j).1.progress ≤ 100 := by
  intro rest
  induction rest with
  | nil =>
      intro i acc j hlen hprog
      rw [runLoop_nil]
      refine ⟨List.Pairwise.nil, ?_, le_refl _, ?_⟩
      · intro p hp
        simp [progressTrace] at hp
      · rw [hprog]
        exact qdiv_le_100 i n hn (by simpa using hlen)
  | cons u rest ih =>
      intro i acc j hlen hprog
      have hin : i ≤ n := by
        simp only [List.length_cons] at hlen
        omega
      have hto100 : j.progress ≤ 100 := by
        rw [hprog]
        exact qdiv_le_100 i n hn hin
      cases hT : env.stopTop i with
      | true =>
          rw [runLoop_stopped a env d inv n i acc j (u :: rest) hT]
          refine ⟨List.Pairwise.nil, ?_, le_refl _, hto100⟩
          intro p hp
          simp [progressTrace] at hp
      | false =>
          cases hP : env.stopPost i with
          | true =>
              rw [runLoop_stopPost a env d inv n u rest i acc j hT hP]
              refine ⟨List.Pairwise.nil, ?_, le_refl _, hto100⟩
              intro p hp
              simp [progressTrace] at hp
          | false =>
              have hj2 : (recordStep
                  (if 0 < i ∧ 0 < d then countdownPhase j u.email d else (j, [])).1
                  (acc ++ [processRecord u (env.outcome i)])
                  (processRecord u (env.outcome i)) i n).progress =
                  ((i + 1 : ℕ) : ℚ) / (n : ℚ) * 100 := by
                show ((i : ℚ) + 1) / (n : ℚ) * 100 = _
                push_cast
                ring
              have hlen' : (i + 1) + rest.length ≤ n := by
                simp only [List.length_cons] at hlen
                omega
              obtain ⟨ihPW, ihMem, ihEntry, ihLast⟩ := ih (i + 1)
                (acc ++ [processRecord u (env.outcome i)]) _ hlen' hj2
              have hstep : j.progress ≤ (recordStep
                  (if 0 < i ∧ 0 < d then countdownPhase j u.email d else (j, [])).1
                  (acc ++ [processRecord u (env.outcome i)])
                  (processRecord u (env.outcome i)) i n).progress := by
                rw [hprog, hj2]
                exact qdiv_mono i (i + 1) n hn (by omega)
              rw [runLoop_go_fst a env d inv n u rest i acc j hT hP,
                runLoop_go_snd a env d inv n u rest i acc j hT hP]
              rw [progressTrace_append, progressTrace_call_cons, progressTrace_publish_cons]
              refine ⟨?_, ?_, ?_, ihLast⟩
              · rw [List.pairwise_append]
                refine ⟨pairwise_le_of_all_eq (progressTrace_cdSnd_mem j u i d), ?_, ?_⟩
                · rw [List.pairwise_cons]
                  refine ⟨?_, ihPW⟩
                  intro q hq
                  exact (ihMem q hq).1
                · intro x hx y hy
                  rw [progressTrace_cdSnd_mem j u i d x hx]
                  rcases List.mem_cons.mp hy with rfl | hy
                  · exact hstep
                  · exact hstep.trans (ihMem y hy).1
              · intro p hp
                rcases List.mem_append.mp hp with hp | hp
                · rw [progressTrace_cdSnd_mem j u i d p hp]
                  exact ⟨le_refl _, hto100, hstep.trans ihEntry⟩
                · rcases List.mem_cons.mp hp with rfl | hp
                  · exact ⟨hstep, ihEntry.trans ihLast, ihEntry⟩
                  · obtain ⟨h1, h2, h3⟩ := ihMem p hp
                    exact ⟨hstep.trans h1, h2, h3⟩
              · exact hstep.trans ihEntry

theorem configScrub_eq_iff {j j' : ImportJob} :
    configScrub j = configScrub j' ↔
      (j.status = j'.status ∧ j.results = j'.results ∧ j.progress = j'.progress ∧
       j.timeElapsed = j'.timeElapsed ∧ j.successCount = j'.successCount ∧
       j.failCount = j'.failCount ∧ j.showStats = j'.showStats ∧
       j.countdown = j'.countdown ∧ j.nextUserEmail = j'.nextUserEmail) := by
  cases j
  cases j'
  simp [configScrub, ImportJob.mk.injEq]

theorem configScrub_applyUpd (o : Option (String × Bool × ℕ)) (j : ImportJob) :
    configScrub (applySettingsUpd o j) = configScrub j := by
  cases o with
  | none => rfl
  | some v =>
      obtain ⟨e, si, dd⟩ := v
      rfl

theorem configScrub_set_cd {j j' : ImportJob} (h : configScrub j = configScrub j')
    (x : Option String) (y : ℕ) :
    configScrub { j with nextUserEmail := x, countdown := y } =
      configScrub { j' with nextUserEmail := x, countdown := y } := by
  rw [configScrub_eq_iff] at h ⊢
  obtain ⟨h1, h2, h3, h4, h5, h6, h7, h8, h9⟩ := h
  exact ⟨h1, h2, h3, h4, h5, h6, h7, rfl, rfl⟩

theorem recordStep_scrub {j j' : ImportJob} (h : configScrub j = configScrub j')
    (acc : List UserOperationResult) (r : UserOperationResult) (i n : ℕ) :
    configScrub (recordStep j acc r i n) = configScrub (recordStep j' acc r i n) := by
  rw [configScrub_eq_iff] at h ⊢
  obtain ⟨h1, h2, h3, h4, h5, h6, h7, h8, h9⟩ := h
  refine ⟨h1, rfl, rfl, h4, ?_, ?_, h7, h8, h9⟩
  · show (if r.status = .success then j.successCount + 1 else j.successCount) = _
    rw [h5]
    rfl
  · show (if r.status = .error then j.failCount + 1 else j.failCount) = _
    rw [h6]
    rfl

theorem countdownPhase_scrub {j j' : ImportJob} (h : configScrub j = configScrub j')
    (email : String) (d : ℕ) :
    (countdownPhase j email d).2.map scrubEvent =
      (countdownPhase j' email d).2.map scrubEvent ∧
    configScrub (countdownPhase j email d).1 = configScrub (countdownPhase j' email d).1 := by
  constructor
  · rw [countdownPhase_snd, countdownPhase_snd]
    simp only [List.map_cons, List.map_append, List.map_map]
    have hh : scrubEvent (Event.publish { j with nextUserEmail := some email, countdown := d }) =
        scrubEvent (Event.publish { j' with nextUserEmail := some email, countdown := d }) := by
      show Event.publish _ = Event.publish _
      exact congrArg Event.publish (configScrub_set_cd h (some email) d)
    have hm : (scrubEvent ∘ fun t =>
          Event.publish { j with nextUserEmail := some email, countdown := d - (t + 1) }) =
        (scrubEvent ∘ fun t =>
          Event.publish { j' with nextUserEmail := some email, countdown := d - (t + 1) }) := by
      funext t
      show Event.publish _ = Event.publish _
      exact congrArg Event.publish (configScrub_set_cd h (some email) (d - (t + 1)))
    have hl : scrubEvent (Event.publish { j with nextUserEmail := none, countdown := 0 }) =
        scrubEvent (Event.publish { j' with nextUserEmail := none, countdown := 0 }) := by
      show Event.publish _ = Event.publish _
      exact congrArg Event.publish (configScrub_set_cd h none 0)
    rw [hh, hm, hl]
  · rw [countdownPhase_fst, countdownPhase_fst]
    exact configScrub_set_cd h none 0

theorem cdIf_scrub {j j' : ImportJob} (h : configScrub j = configScrub j')
    (u : BulkUserData) (i d : ℕ) :
    ((if 0 < i ∧ 0 < d then countdownPhase j u.email d else (j, [])).2).map scrubEvent =
      ((if 0 < i ∧ 0 < d then countdownPhase j' u.email d else (j', [])).2).map scrubEvent ∧
    configScrub ((if 0 < i ∧ 0 < d then countdownPhase j u.email d else (j, [])).1) =
      configScrub ((if 0 < i ∧ 0 < d then countdownPhase j' u.email d else (j', [])).1) := by
  by_cases hc : 0 < i ∧ 0 < d
  · rw [if_pos hc, if_pos hc]
    exact countdownPhase_scrub h u.email d
  · rw [if_neg hc, if_neg hc]
    exact ⟨rfl, h⟩

theorem runLoopU_nil (a : String) (env : RunEnv) (upd : ℕ → Option (String × Bool × ℕ))
    (d : ℕ) (inv : Bool) (n i : ℕ) (acc : List UserOperationResult) (j : ImportJob) :
    runLoopU a env upd d inv n [] i acc j = (j, []) := rfl

theorem runLoopU_stopTop (a : String) (env : RunEnv) (upd : ℕ → Option (String × Bool × ℕ))
    (d : ℕ) (inv : Bool) (n : ℕ) (u : BulkUserData) (rest : List BulkUserData) (i : ℕ)
    (acc : List UserOperationResult) (j : ImportJob) (hT : env.stopTop i = true) :
    runLoopU a env upd d inv n (u :: rest) i acc j = (applySettingsUpd (upd i) j, []) := by
  simp [runLoopU, hT]

theorem runLoopU_stopPost (a : String) (env : RunEnv) (upd : ℕ → Option (String × Bool × ℕ))
    (d : ℕ) (inv : Bool) (n : ℕ) (u : BulkUserData) (rest : List BulkUserData) (i : ℕ)
    (acc : List UserOperationResult) (j : ImportJob)
    (hT : env.stopTop i = false) (hP : env.stopPost i = true) :
    runLoopU a env upd d inv n (u :: rest) i acc j = (applySettingsUpd (upd i) j, []) := by
  simp [runLoopU, hT, hP]

theorem runLoopU_go (a : String) (env : RunEnv) (upd : ℕ → Option (String × Bool × ℕ))
    (d : ℕ) (inv : Bool) (n : ℕ) (u : BulkUserData) (rest : List BulkUserData) (i : ℕ)
    (acc : List UserOperationResult) (j : ImportJob)
    (hT : env.stopTop i = false) (hP : env.stopPost i = false) :
    runLoopU a env upd d inv n (u :: rest) i acc j =
      ((runLoopU a env upd d inv n rest (i + 1)
          (acc ++ [processRecord u (env.outcome i)])
          (recordStep (if 0 < i ∧ 0 < d then
              countdownPhase (applySettingsUpd (upd i) j) u.email d
            else (applySettingsUpd (upd i) j, [])).1
            (acc ++ [processRecord u (env.outcome i)])
            (processRecord u (env.outcome i)) i n)).1,
       (if 0 < i ∧ 0 < d then countdownPhase (applySettingsUpd (upd i) j) u.email d
          else (applySettingsUpd (upd i) j, [])).2 ++
         Event.remoteCall a u inv ::
           Event.publish
             (recordStep (if 0 < i ∧ 0 < d then
                 countdownPhase (applySettingsUpd (upd i) j) u.email d
               else (applySettingsUpd (upd i) j, [])).1
               (acc ++ [processRecord u (env.outcome i)])
               (processRecord u (env.outcome i)) i n) ::
           (runLoopU a env upd d inv n rest (i + 1)
             (acc ++ [processRecord u (env.outcome i)])
             (recordStep (if 0 < i ∧ 0 < d then
                 countdownPhase (applySettingsUpd (upd i) j) u.email d
               else (applySettingsUpd (upd i) j, [])).1
               (acc ++ [processRecord u (env.outcome i)])
               (processRecord u (env.outcome i)) i n)).2) := by
  simp only [runLoopU, hT, hP, Bool.false_eq_true, if_false]

theorem runLoopU_scrub (a : String) (env : RunEnv) (upd : ℕ → Option (String × Bool × ℕ))
    (d : ℕ) (inv : Bool) (n : ℕ) :
    ∀ (rest : List BulkUserData) (i : ℕ) (acc : List UserOperationResult)
      (jU j : ImportJob), configScrub jU = configScrub j →
      (runLoopU a env upd d inv n rest i acc jU).2.map scrubEvent =
        (runLoop a env d inv n rest i acc j).2.map scrubEvent ∧
      configScrub (runLoopU a env upd d inv n rest i acc jU).1 =
        configScrub (runLoop a env d inv n rest i acc j).1 := by
  intro rest
  induction rest with
  | nil =>
      intro i acc jU j h
      rw [runLoopU_nil, runLoop_nil]
      exact ⟨rfl, h⟩
  | cons u rest ih =>
      intro i acc jU j h
      have h' : configScrub (applySettingsUpd (upd i) jU) = configScrub j :=
        (configScrub_applyUpd (upd i) jU).trans h
      cases hT : env.stopTop i with
      | true =>
          rw [runLoopU_stopTop a env upd d inv n u rest i acc jU hT,
            runLoop_stopped a env d inv n i acc j (u :: rest) hT]
          exact ⟨rfl, h'⟩
      | false =>
          cases hP : env.stopPost i with
          | true =>
              rw [runLoopU_stopPost a env upd d inv n u rest i acc jU hT hP,
                runLoop_stopPost a env d inv n u rest i acc j hT hP]
              exact ⟨rfl, h'⟩
          | false =>
              obtain ⟨hcd2, hcd1⟩ := cdIf_scrub h' u i d
              have hj2 := recordStep_scrub hcd1
                (acc ++ [processRecord u (env.outcome i)])
                (processRecord u (env.outcome i)) i n
              obtain ⟨htr, hfin⟩ := ih (i + 1) (acc ++ [processRecord u (env.outcome i)]) _ _ hj2
              constructor
              · rw [runLoopU_go a env upd d inv n u rest i acc jU hT hP,
                  runLoop_go_snd a env d inv n u rest i acc j hT hP]
                simp only [List.map_append, List.map_cons]
                rw [hcd2, htr]
                have hpub : scrubEvent (Event.publish (recordStep
                    (if 0 < i ∧ 0 < d then
                        countdownPhase (applySettingsUpd (upd i) jU) u.email d
                      else (applySettingsUpd (upd i) jU, [])).1
                    (acc ++ [processRecord u (env.outcome i)])
                    (processRecord u (env.outcome i)) i n)) =
                    scrubEvent (Event.publish (recordStep
                      (if 0 < i ∧ 0 < d then countdownPhase j u.email d else (j, [])).1
                      (acc ++ [processRecord u (env.outcome i)])
                      (processRecord u (env.outcome i)) i n)) := by
                  show Event.publish _ = Event.publish _
                  exact congrArg Event.publish hj2
                rw [hpub]
              · rw [runLoopU_go a env upd d inv n u rest i acc jU hT hP,
                  runLoop_go_fst a env d inv n u rest i acc j hT hP]
                exact hfin

theorem getJob_setJob (store : JobStore) (a : String) (j : ImportJob) :
    getJob (setJob store a j) a = j := by
  simp [getJob, setJob]

theorem startImportJob_getJob (store : JobStore) (env : RunEnv) (a : String)
    (users : List BulkUserData) :
    getJob (startImportJob store env a users).1 a =
      { (runLoop a env (getJob store a).delayInSeconds (getJob store a).sendInvites
          users.length users 0 [] (startReset (getJob store a))).1 with
        status := if env.stopFinal then JobStatus.stopped else .completed } := by
  show getJob (setJob store a _) a = _
  rw [getJob_setJob]

theorem startImportJob_snd (store : JobStore) (env : RunEnv) (a : String)
    (users : List BulkUserData) :
    (startImportJob store env a users).2 =
      Event.publish (startReset (getJob store a)) ::
        ((runLoop a env (getJob store a).delayInSeconds (getJob store a).sendInvites
            users.length users 0 [] (startReset (getJob store a))).2 ++
         [Event.publish
            { (runLoop a env (getJob store a).delayInSeconds (getJob store a).sendInvites
                users.length users 0 [] (startReset (getJob store a))).1 with
              status := if env.stopFinal then JobStatus.stopped else .completed }]) := rfl

theorem runLoop_final_sum (a : String) (env : RunEnv) (d : ℕ) (inv : Bool) (n : ℕ) :
    ∀ (rest : List BulkUserData) (i : ℕ) (acc : List UserOperationResult) (j : ImportJob),
      j.results = acc → j.successCount + j.failCount = acc.length →
      (runLoop a env d inv n rest i acc j).1.successCount +
          (runLoop a env d inv n rest i acc j).1.failCount =
        (runLoop a env d inv n rest i acc j).1.results.length := by
  intro rest
  induction rest with
  | nil =>
      intro i acc j h1 h2
      rw [runLoop_nil]
      rw [← h1] at h2
      exact h2
  | cons u rest ih =>
      intro i acc j h1 h2
      cases hT : env.stopTop i with
      | true =>
          rw [runLoop_stopped a env d inv n i acc j (u :: rest) hT]
          rw [← h1] at h2
          exact h2
      | false =>
          cases hP : env.stopPost i with
          | true =>
              rw [runLoop_stopPost a env d inv n u rest i acc j hT hP]
              rw [← h1] at h2
              exact h2
          | false =>
              rw [runLoop_go_fst a env d inv n u rest i acc j hT hP]
              apply ih (i + 1)
              · exact recordStep_results _ _ _ _ _
              · rw [recordStep_sum, cdFst_successCount, cdFst_failCount]
                simp [h2]

/-- C1: at every point of a run, each published job state satisfies
successCount + failCount = results.length; after a start call on the
records parsed and filtered from the input text runs to completion,
successCount + failCount = results.length = number of records after
filtering; and the per-record update appends exactly one OperationResult
and bumps exactly one of the two counters in the same atomic state
update. -/
theorem c1_counter_invariant (store : JobStore) (env : RunEnv) (a text : String)
    (hns : NoStop env) :
    (∀ (env' : RunEnv) (jj : ImportJob),
        Event.publish jj ∈ (startImportJob store env' a (parseUserData text)).2 →
        jj.successCount + jj.failCount = jj.results.length) ∧
    ((getJob (startImportJob store env a (parseUserData text)).1 a).successCount +
        (getJob (startImportJob store env a (parseUserData text)).1 a).failCount =
      (getJob (startImportJob store env a (parseUserData text)).1 a).results.length) ∧
    ((getJob (startImportJob store env a (parseUserData text)).1 a).results.length =
      (parseUserData text).length) ∧
    (∀ (j : ImportJob) (acc : List UserOperationResult) (r : UserOperationResult) (i n : ℕ),
        (recordStep j (acc ++ [r]) r i n).results = acc ++ [r] ∧
        (r.status = .success →
          (recordStep j (acc ++ [r]) r i n).successCount = j.successCount + 1 ∧
          (recordStep j (acc ++ [r]) r i n).failCount = j.failCount) ∧
        (r.status = .error →
          (recordStep j (acc ++ [r]) r i n).failCount = j.failCount + 1 ∧
          (recordStep j (acc ++ [r]) r i n).successCount = j.successCount)) := by
  obtain ⟨hTP, hF⟩ := hns
  refine ⟨?_, ?_, ?_, ?_⟩
  · intro env' jj hjj
    rw [startImportJob_snd] at hjj
    rcases List.mem_cons.mp hjj with hj0 | hjj
    · injection hj0 with hj0
      subst hj0
      rfl
    · rcases List.mem_append.mp hjj with hjj | hjf
      · exact runLoop_publish_sum a env' (getJob store a).delayInSeconds
          (getJob store a).sendInvites (parseUserData text).length
          (parseUserData text) 0 [] (startReset (getJob store a)) rfl rfl jj hjj
      · rcases List.mem_cons.mp hjf with hjf | hjf
        · injection hjf with hjf
          subst hjf
          show (runLoop _ _ _ _ _ _ _ _ _).1.successCount +
              (runLoop _ _ _ _ _ _ _ _ _).1.failCount =
            (runLoop _ _ _ _ _ _ _ _ _).1.results.length
          exact runLoop_final_sum a env' (getJob store a).delayInSeconds
            (getJob store a).sendInvites (parseUserData text).length
            (parseUserData text) 0 [] (startReset (getJob store a)) rfl rfl
        · exact absurd hjf (List.not_mem_nil _)
  · rw [startImportJob_getJob]
    show (runLoop _ _ _ _ _ _ _ _ _).1.successCount +
        (runLoop _ _ _ _ _ _ _ _ _).1.failCount =
      (runLoop _ _ _ _ _ _ _ _ _).1.results.length
    exact runLoop_final_sum a env (getJob store a).delayInSeconds
      (getJob store a).sendInvites (parseUserData text).length
      (parseUserData text) 0 [] (startReset (getJob store a)) rfl rfl
  · rw [startImportJob_getJob]
    show (runLoop _ _ _ _ _ _ _ _ _).1.results.length = _
    rw [runLoop_noStop_results a env (getJob store a).delayInSeconds
      (getJob store a).sendInvites (parseUserData text).length
      (fun k => (hTP k).1) (fun k => (hTP k).2)
      (parseUserData text) 0 [] (startReset (getJob store a)) rfl]
    simp [processedFrom_length]
  · intro j acc r i n
    refine ⟨rfl, ?_, ?_⟩
    · intro hr
      constructor <;> simp [recordStep, hr]
    · intro hr
      constructor <;> simp [recordStep, hr]

/-- Witness for C1 at a concrete two-record input with a quiet
environment. -/
theorem c1_counter_invariant_witness :
    NoStop quietEnv ∧
    (getJob (startImportJob emptyStore quietEnv "acct"
        (parseUserData "a@x.com,A,One\nb@x.com,B,Two")).1 "acct").results.length =
      (parseUserData "a@x.com,A,One\nb@x.com,B,Two").length :=
  ⟨⟨fun _ => ⟨rfl, rfl⟩, rfl⟩,
   (c1_counter_invariant emptyStore quietEnv "acct" "a@x.com,A,One\nb@x.com,B,Two"
      ⟨fun _ => ⟨rfl, rfl⟩, rfl⟩).2.2.1⟩

/-- C2 counterexample: startImportJob invoked while the stored job of
the account is Running, with nonempty results and a nonzero success
counter, performs no status check: its first published state has empty
results and zero counters and a remote call for the new list is issued,
so a start during Running is neither rejected nor a no-op. -/
theorem c2_counterexample :
    (getJob ceStore "acct").status = .running ∧
    (getJob ceStore "acct").results ≠ [] ∧
    (getJob ceStore "acct").successCount = 1 ∧
    (startImportJob ceStore quietEnv "acct" [uA]).2.head? =
      some (Event.publish (startReset runningJob)) ∧
    (startReset runningJob).results = [] ∧
    (startReset runningJob).successCount = 0 ∧
    Event.remoteCall "acct" uA true ∈ (startImportJob ceStore quietEnv "acct" [uA]).2 := by
  decide

/-- C2 amended: the controller start performs no status guard itself:
invoked while the job is Running or Paused it still resets results and
counters (its first published state is always the reset record) and
begins a new run loop (one remote call per supplied record when no stop
is requested); at most one loop per account is enforced only by the
caller, whose start control is shown and enabled only when the status
is Idle, Stopped or Completed. -/
theorem c2_start_unguarded :
    (∀ j : ImportJob, (startControlsShown j && startButtonEnabled j) = true →
        j.status ≠ .running ∧ j.status ≠ .paused) ∧
    (∀ (store : JobStore) (env : RunEnv) (a : String) (users : List BulkUserData),
        (startImportJob store env a users).2.head? =
          some (Event.publish (startReset (getJob store a))) ∧
        (startReset (getJob store a)).results = [] ∧
        (startReset (getJob store a)).successCount = 0 ∧
        (startReset (getJob store a)).failCount = 0 ∧
        ((∀ k, env.stopTop k = false ∧ env.stopPost k = false) →
          callsOf (startImportJob store env a users).2 =
            users.map (fun u => Event.remoteCall a u (getJob store a).sendInvites))) := by
  constructor
  · intro j h
    cases hs : j.status <;>
      simp_all [startControlsShown, startButtonEnabled, isJobRunning]
  · intro store env a users
    refine ⟨?_, rfl, rfl, rfl, ?_⟩
    · rw [startImportJob_snd]
      rfl
    · intro hstop
      rw [startImportJob_snd, callsOf_publish_cons, callsOf_append,
        runLoop_noStop_calls a env (getJob store a).delayInSeconds
          (getJob store a).sendInvites users.length
          (fun k => (hstop k).1) (fun k => (hstop k).2) users 0 [] (startReset (getJob store a))]
      simp [callsOf]

/-- Witness for C2 amended at a concrete startable job and a one-record
run. -/
theorem c2_start_unguarded_witness :
    (startControlsShown startableJob && startButtonEnabled startableJob) = true ∧
    (startableJob.status ≠ .running ∧ startableJob.status ≠ .paused) ∧
    callsOf (startImportJob ceStore quietEnv "acct" [uA]).2 =
      [uA].map (fun u => Event.remoteCall "acct" u (getJob ceStore "acct").sendInvites) :=
  ⟨by decide, c2_start_unguarded.1 startableJob (by decide),
   (c2_start_unguarded.2 ceStore quietEnv "acct" [uA]).2.2.2.2 (fun _ => ⟨rfl, rfl⟩)⟩

/-- C3 counterexample: pauseImportJob on a Completed job whose run handle
still exists flips the stored status to Paused, so a pause call outside
Running is not a no-op and does change the stored state. -/
theorem c3_counterexample :
    (getJob ceStore3 "acct").status = .completed ∧
    (getJob (pauseImportJob ceRefs ceStore3 "acct").2 "acct").status = .paused ∧
    (getJob (pauseImportJob ceRefs ceStore3 "acct").2 "acct").status ≠ .completed := by
  decide

/-- C3 amended: pause and resume are guarded only by the existence of a
run handle for the account, never by the status: with no handle they
are no-ops; with a handle, pause always sets the pause flag and status
Paused and resume always clears the flag and sets status Running,
whatever the current status, leaving results and counters intact; the
status restriction of the spec is enforced only by the page, which
shows Pause exactly while Running and Resume exactly while Paused. -/
theorem c3_pause_resume_guards :
    (∀ (refs : RefStore) (store : JobStore) (a : String), refs a = none →
        pauseImportJob refs store a = (refs, store) ∧
        resumeImportJob refs store a = (refs, store)) ∧
    (∀ (refs : RefStore) (store : JobStore) (a : String) (h : JobRefs), refs a = some h →
        getJob (pauseImportJob refs store a).2 a = { getJob store a with status := .paused } ∧
        (pauseImportJob refs store a).1 a = some { h with isPaused := true } ∧
        getJob (resumeImportJob refs store a).2 a = { getJob store a with status := .running } ∧
        (resumeImportJob refs store a).1 a = some { h with isPaused := false }) ∧
    (∀ j : ImportJob, pauseButtonShown j = true ↔ j.status = .running) ∧
    (∀ j : ImportJob, resumeButtonShown j = true ↔ j.status = .paused) := by
  refine ⟨?_, ?_, ?_, ?_⟩
  · intro refs store a h
    constructor <;> simp [pauseImportJob, resumeImportJob, h]
  · intro refs store a h hra
    refine ⟨?_, ?_, ?_, ?_⟩
    · simp [pauseImportJob, hra, getJob_setJob]
    · simp [pauseImportJob, hra]
    · simp [resumeImportJob, hra, getJob_setJob]
    · simp [resumeImportJob, hra]
  · intro j
    cases hs : j.status <;> simp [pauseButtonShown, startControlsShown, hs]
  · intro j
    cases hs : j.status <;> simp [resumeButtonShown, startControlsShown, hs]

/-- Witness for C3 amended: a concrete handle makes pause rewrite the
stored Completed job to Paused, and the page guard holds for a Running
job. -/
theorem c3_pause_resume_guards_witness :
    ceRefs "acct" = some { isPaused := false, isStopped := false } ∧
    getJob (pauseImportJob ceRefs ceStore3 "acct").2 "acct" =
      { getJob ceStore3 "acct" with status := .paused } ∧
    (pauseButtonShown runningJob = true ↔ runningJob.status = .running) :=
  ⟨by decide,
   (c3_pause_resume_guards.2.1 ceRefs ceStore3 "acct"
     { isPaused := false, isStopped := false } (by decide)).1,
   c3_pause_resume_guards.2.2.1 runningJob⟩

theorem stopConsistent_noStop_of_final {env : RunEnv} (hsc : StopConsistent env)
    (hF : env.stopFinal = false) :
    ∀ k, env.stopTop k = false ∧ env.stopPost k = false := by
  intro k
  have hp : env.stopPost k = false := by
    cases hpk : env.stopPost k with
    | false => rfl
    | true => rw [hsc.2.2 k hpk] at hF; cases hF
  have ht : env.stopTop k = false := by
    cases htk : env.stopTop k with
    | false => rfl
    | true => rw [hsc.1 k htk] at hp; cases hp
  exact ⟨ht, hp⟩

/-- C4: within a single run on a non-empty record list, the first
published progress is 0, all published progress values are
monotonically non-decreasing and stay within the interval from 0 to
100, and whenever the final status is Completed the final progress is
exactly 100. -/
theorem c4_progress_monotone (store : JobStore) (env : RunEnv) (a : String)
    (users : List BulkUserData) (hsc : StopConsistent env) (hne : users ≠ []) :
    (progressTrace (startImportJob store env a users).2).head? = some 0 ∧
    List.Pairwise (fun p q => p ≤ q) (progressTrace (startImportJob store env a users).2) ∧
    (∀ p ∈ progressTrace (startImportJob store env a users).2, 0 ≤ p ∧ p ≤ 100) ∧
    ((getJob (startImportJob store env a users).1 a).status = .completed →
      (getJob (startImportJob store env a users).1 a).progress = 100) := by
  have hn : 0 < users.length := List.length_pos.mpr hne
  have hprog0 : (startReset (getJob store a)).progress =
      ((0 : ℕ) : ℚ) / (users.length : ℚ) * 100 := by
    show (0 : ℚ) = _
    simp
  obtain ⟨PW, MEM, ENTRY, LAST⟩ := runLoop_progress_pairwise a env
    (getJob store a).delayInSeconds (getJob store a).sendInvites users.length hn
    users 0 [] (startReset (getJob store a)) (by omega) hprog0
  have hj0 : (startReset (getJob store a)).progress = 0 := rfl
  have hfinal : ((getJob (startImportJob store env a users).1 a)).progress =
      (runLoop a env (getJob store a).delayInSeconds (getJob store a).sendInvites
        users.length users 0 [] (startReset (getJob store a))).1.progress := by
    rw [startImportJob_getJob]
  refine ⟨?_, ?_, ?_, ?_⟩
  · rw [startImportJob_snd, progressTrace_publish_cons]
    rfl
  · rw [startImportJob_snd, progressTrace_publish_cons, progressTrace_append,
      progressTrace_publish_cons]
    rw [List.pairwise_cons]
    constructor
    · intro q hq
      rcases List.mem_append.mp hq with hq | hq
      · have := (MEM q hq).1
        rw [hj0] at this
        exact this
      · rcases List.mem_cons.mp hq with rfl | hq
        · show (startReset (getJob store a)).progress ≤ _
          exact ENTRY
        · exact absurd hq (by simp [progressTrace_nil])
    · rw [List.pairwise_append]
      refine ⟨PW, by simp [progressTrace_nil], ?_⟩
      intro p hp q hq
      rcases List.mem_cons.mp hq with rfl | hq
      · exact (MEM p hp).2.2
      · exact absurd hq (by simp [progressTrace_nil])
  · rw [startImportJob_snd, progressTrace_publish_cons, progressTrace_append,
      progressTrace_publish_cons]
    intro p hp
    rcases List.mem_cons.mp hp with rfl | hp
    · exact ⟨by simp [hj0], by simp [hj0]⟩
    rcases List.mem_append.mp hp with hp | hp
    · obtain ⟨h1, h2, _⟩ := MEM p hp
      rw [hj0] at h1
      exact ⟨h1, h2⟩
    · rcases List.mem_cons.mp hp with rfl | hp
      · constructor
        · have := ENTRY
          rw [hj0] at this
          exact this
        · exact LAST
      · exact absurd hp (by simp [progressTrace_nil])
  · intro hcomp
    rw [startImportJob_getJob] at hcomp
    have hcomp' : (if env.stopFinal = true then JobStatus.stopped else JobStatus.completed) =
        JobStatus.completed := hcomp
    cases hF : env.stopFinal with
    | true =>
        rw [hF] at hcomp'
        exact absurd hcomp' (by simp)
    | false =>
        have hck := stopConsistent_noStop_of_final hsc hF
        rw [hfinal]
        rw [runLoop_noStop_progress a env (getJob store a).delayInSeconds
          (getJob store a).sendInvites users.length
          (fun k => (hck k).1) (fun k => (hck k).2) users 0 [] (startReset (getJob store a)) hne]
        have hne' : ((users.length : ℚ)) ≠ 0 := by
          exact_mod_cast Nat.pos_iff_ne_zero.mp hn
        rw [show ((0 : ℕ) : ℚ) + (users.length : ℚ) = (users.length : ℚ) by push_cast; ring]
        rw [div_self hne']
        norm_num

/-- Witness for C4 at a concrete two-record run that completes. -/
theorem c4_progress_monotone_witness :
    StopConsistent quietEnv ∧ ([uA, uB] : List BulkUserData) ≠ [] ∧
    ((getJob (startImportJob emptyStore quietEnv "acct" [uA, uB]).1 "acct").status =
        .completed →
      (getJob (startImportJob emptyStore quietEnv "acct" [uA, uB]).1 "acct").progress = 100) :=
  have hsc : StopConsistent quietEnv :=
    ⟨fun _ h => Bool.noConfusion h, fun _ h => Bool.noConfusion h,
     fun _ h => Bool.noConfusion h⟩
  ⟨hsc, by decide,
   (c4_progress_monotone emptyStore quietEnv "acct" [uA, uB] hsc (by decide)).2.2.2⟩

theorem jsOr_ne_empty (s : Option String) (d : String) (hd : d ≠ "") : jsOr s d ≠ "" := by
  cases s with
  | none => exact hd
  | some v =>
      show (if v = "" then d else v) ≠ ""
      split
      · exact hd
      · assumption

theorem importUserEndpoint_message_ne (found inv : Bool) (u : BulkUserData)
    (resp : ClerkResp) : (importUserEndpoint found inv u resp).message ≠ "" := by
  cases found with
  | false =>
      show ("Account not found." : String) ≠ ""
      decide
  | true =>
      cases resp with
      | ok id =>
          show (if inv = true then "Invitation sent" else "User created") ≠ ""
          cases inv <;> decide
      | httpError m =>
          show jsOr m "An API error occurred." ≠ ""
          exact jsOr_ne_empty m _ (by decide)
      | transportFail =>
          show ("Failed to connect to the Clerk API." : String) ≠ ""
          decide

/-- C5: per-record remote failures never abort the run: the backend
endpoint maps an unknown account, any non-2xx Clerk response and any
transport failure to a Failure OperationResult with a human-readable
nonempty message (and never anything but success or error), the
frontend catch maps a failed fetch to a Failure result, and under any
environment without a stop the loop appends exactly one result per
record in input order and reaches the end of the list. -/
theorem c5_per_record_failures :
    (∀ (found inv : Bool) (u : BulkUserData) (resp : ClerkResp),
        ((importUserEndpoint found inv u resp).status = .success ∨
         (importUserEndpoint found inv u resp).status = .error) ∧
        (importUserEndpoint found inv u resp).message ≠ "" ∧
        (resp = .transportFail → (importUserEndpoint found inv u resp).status = .error) ∧
        (∀ m, resp = .httpError m → (importUserEndpoint found inv u resp).status = .error) ∧
        (found = false → (importUserEndpoint found inv u resp).status = .error) ∧
        (importUserEndpoint found inv u resp).email = u.email) ∧
    (∀ u : BulkUserData, processRecord u .networkError =
        { email := u.email, status := .error,
          message := "Failed to connect to backend.", userId := none }) ∧
    (∀ (store : JobStore) (env : RunEnv) (a : String) (users : List BulkUserData),
        NoStop env →
        (getJob (startImportJob store env a users).1 a).results =
          processedFrom env 0 users ∧
        (getJob (startImportJob store env a users).1 a).results.length = users.length) := by
  refine ⟨?_, fun u => rfl, ?_⟩
  · intro found inv u resp
    refine ⟨?_, importUserEndpoint_message_ne found inv u resp, ?_, ?_, ?_, ?_⟩
    · cases found <;> cases resp <;> simp [importUserEndpoint]
    · intro hr
      subst hr
      cases found <;> rfl
    · intro m hr
      subst hr
      cases found <;> rfl
    · intro hf
      subst hf
      rfl
    · cases found <;> cases resp <;> rfl
  · intro store env a users hns
    obtain ⟨hTP, _⟩ := hns
    have hres : (getJob (startImportJob store env a users).1 a).results =
        processedFrom env 0 users := by
      rw [startImportJob_getJob]
      show (runLoop _ _ _ _ _ _ _ _ _).1.results = _
      rw [runLoop_noStop_results a env (getJob store a).delayInSeconds
        (getJob store a).sendInvites users.length
        (fun k => (hTP k).1) (fun k => (hTP k).2) users 0 [] (startReset (getJob store a)) rfl]
      simp
    refine ⟨hres, ?_⟩
    rw [hres, processedFrom_length]

/-- Witness for C5 at one record with a transport failure. -/
theorem c5_per_record_failures_witness :
    NoStop quietEnv ∧ ClerkResp.transportFail = ClerkResp.transportFail ∧
    (importUserEndpoint true true uA .transportFail).status = .error ∧
    (getJob (startImportJob emptyStore quietEnv "acct" [uA]).1 "acct").results.length =
      ([uA] : List BulkUserData).length :=
  have hns : NoStop quietEnv := ⟨fun _ => ⟨rfl, rfl⟩, rfl⟩
  ⟨hns, rfl, (c5_per_record_failures.1 true true uA .transportFail).2.2.1 rfl,
   (c5_per_record_failures.2.2 emptyStore quietEnv "acct" [uA] hns).2⟩

/-- C6: when parsing and filtering the stored input text leaves zero
valid records, handleStartImport reports the invalid-data outcome to
the caller before any state transition: the store is returned unchanged
and no event, in particular no remote call, is produced. -/
theorem c6_zero_records (activeAccount : String) (store : JobStore) (env : RunEnv)
    (h : parseUserData (getJob store activeAccount).userEmails = []) :
    handleStartImport (some activeAccount) store env =
      (StartOutcome.invalidData, store, []) := by
  simp [handleStartImport, h]

/-- Witness for C6: a stored input consisting of one malformed line is
rejected with the store untouched. -/
theorem c6_zero_records_witness :
    parseUserData (getJob invalidTextStore "acct").userEmails = [] ∧
    handleStartImport (some "acct") invalidTextStore quietEnv =
      (StartOutcome.invalidData, invalidTextStore, []) :=
  ⟨by decide, c6_zero_records "acct" invalidTextStore quietEnv (by decide)⟩

/-- C9: clearing a job that is not Running or Paused resets its record
to the default Idle state, including the configuration fields. -/
theorem c9_clear_resets (store : JobStore) (a : String)
    (_h1 : (getJob store a).status ≠ .running) (_h2 : (getJob store a).status ≠ .paused) :
    getJob (clearImportJob store a) a = initialJobState ∧
    initialJobState.status = .idle ∧ initialJobState.results = [] ∧
    initialJobState.successCount = 0 ∧ initialJobState.failCount = 0 ∧
    initialJobState.progress = 0 ∧ initialJobState.timeElapsed = 0 ∧
    initialJobState.countdown = 0 ∧ initialJobState.nextUserEmail = none ∧
    initialJobState.userEmails = "" ∧ initialJobState.sendInvites = true ∧
    initialJobState.delayInSeconds = 1 :=
  ⟨getJob_setJob store a initialJobState, rfl, rfl, rfl, rfl, rfl, rfl, rfl, rfl, rfl, rfl, rfl⟩

/-- Witness for C9 on a Completed job with stale results. -/
theorem c9_clear_resets_witness :
    (getJob ceStore3 "acct").status ≠ .running ∧
    (getJob ceStore3 "acct").status ≠ .paused ∧
    getJob (clearImportJob ceStore3 "acct") "acct" = initialJobState :=
  ⟨by decide, by decide, (c9_clear_resets ceStore3 "acct" (by decide) (by decide)).1⟩

theorem configScrub_set_status {j j' : ImportJob} (h : configScrub j = configScrub j')
    (st : JobStatus) :
    configScrub { j with status := st } = configScrub { j' with status := st } := by
  rw [configScrub_eq_iff] at h ⊢
  obtain ⟨h1, h2, h3, h4, h5, h6, h7, h8, h9⟩ := h
  exact ⟨rfl, h2, h3, h4, h5, h6, h7, h8, h9⟩

theorem startImportJobU_getJob (store : JobStore) (env : RunEnv)
    (upd : ℕ → Option (String × Bool × ℕ)) (a : String) (users : List BulkUserData) :
    getJob (startImportJobU store env upd a users).1 a =
      { (runLoopU a env upd (getJob store a).delayInSeconds (getJob store a).sendInvites
          users.length users 0 [] (startReset (getJob store a))).1 with
        status := if env.stopFinal then JobStatus.stopped else .completed } := by
  show getJob (setJob store a _) a = _
  rw [getJob_setJob]

theorem startImportJobU_snd (store : JobStore) (env : RunEnv)
    (upd : ℕ → Option (String × Bool × ℕ)) (a : String) (users : List BulkUserData) :
    (startImportJobU store env upd a users).2 =
      Event.publish (startReset (getJob store a)) ::
        ((runLoopU a env upd (getJob store a).delayInSeconds (getJob store a).sendInvites
            users.length users 0 [] (startReset (getJob store a))).2 ++
         [Event.publish
            { (runLoopU a env upd (getJob store a).delayInSeconds (getJob store a).sendInvites
                users.length users 0 [] (startReset (getJob store a))).1 with
              status := if env.stopFinal then JobStatus.stopped else .completed }]) := rfl

/-- C10: the run loop reads delayInSeconds and sendInvites exactly once
at start time: updateJobSettings merges only the configuration fields
into the stored record, leaving results, counters and status untouched,
and a run interleaved with arbitrary configuration updates publishes the
same state sequence up to the copied configuration fields, issues
exactly the same remote calls with the invite mode captured at start,
and ends with the same results, counters and status as the undisturbed
run. -/
theorem c10_settings_captured :
    (∀ (store : JobStore) (a e : String) (si : Bool) (dd : ℕ),
        getJob (updateJobSettings store a (settingsUpdate e si dd)) a =
          settingsUpdate e si dd (getJob store a) ∧
        (∀ j : ImportJob, (settingsUpdate e si dd j).results = j.results ∧
          (settingsUpdate e si dd j).successCount = j.successCount ∧
          (settingsUpdate e si dd j).failCount = j.failCount ∧
          (settingsUpdate e si dd j).status = j.status ∧
          (settingsUpdate e si dd j).userEmails = e ∧
          (settingsUpdate e si dd j).sendInvites = si ∧
          (settingsUpdate e si dd j).delayInSeconds = dd)) ∧
    (∀ (store : JobStore) (env : RunEnv) (upd : ℕ → Option (String × Bool × ℕ))
        (a : String) (users : List BulkUserData),
        (startImportJobU store env upd a users).2.map scrubEvent =
          (startImportJob store env a users).2.map scrubEvent ∧
        (getJob (startImportJobU store env upd a users).1 a).results =
          (getJob (startImportJob store env a users).1 a).results ∧
        (getJob (startImportJobU store env upd a users).1 a).successCount =
          (getJob (startImportJob store env a users).1 a).successCount ∧
        (getJob (startImportJobU store env upd a users).1 a).failCount =
          (getJob (startImportJob store env a users).1 a).failCount ∧
        (getJob (startImportJobU store env upd a users).1 a).status =
          (getJob (startImportJob store env a users).1 a).status) := by
  constructor
  · intro store a e si dd
    exact ⟨getJob_setJob store a _, fun j => ⟨rfl, rfl, rfl, rfl, rfl, rfl, rfl⟩⟩
  · intro store env upd a users
    obtain ⟨htr, hfin⟩ := runLoopU_scrub a env upd (getJob store a).delayInSeconds
      (getJob store a).sendInvites users.length users 0 []
      (startReset (getJob store a)) (startReset (getJob store a)) rfl
    obtain ⟨hst, hres, hprog, hte, hsc2, hfc, hss, hcd, hne⟩ := configScrub_eq_iff.mp hfin
    refine ⟨?_, ?_, ?_, ?_, ?_⟩
    · rw [startImportJobU_snd, startImportJob_snd]
      simp only [List.map_cons, List.map_append]
      exact congrArg₂
        (fun x y => scrubEvent (Event.publish (startReset (getJob store a))) ::
          (x ++ y :: List.map scrubEvent ([] : List Event)))
        htr
        (congrArg Event.publish (configScrub_set_status hfin
          (if env.stopFinal then JobStatus.stopped else JobStatus.completed)))
    · simp only [startImportJobU_getJob, startImportJob_getJob]
      exact hres
    · simp only [startImportJobU_getJob, startImportJob_getJob]
      exact hsc2
    · simp only [startImportJobU_getJob, startImportJob_getJob]
      exact hfc
    · simp only [startImportJobU_getJob, startImportJob_getJob]

theorem runLoop_cd0_final (a : String) (env : RunEnv) (inv : Bool) (n : ℕ) :
    ∀ (rest : List BulkUserData) (i : ℕ) (acc : List UserOperationResult) (j : ImportJob),
      j.countdown = 0 → j.nextUserEmail = none →
      (runLoop a env 0 inv n rest i acc j).1.countdown = 0 ∧
      (runLoop a env 0 inv n rest i acc j).1.nextUserEmail = none := by
  intro rest
  induction rest with
  | nil =>
      intro i acc j h1 h2
      rw [runLoop_nil]
      exact ⟨h1, h2⟩
  | cons u rest ih =>
      intro i acc j h1 h2
      cases hT : env.stopTop i with
      | true =>
          rw [runLoop_stopped a env 0 inv n i acc j (u :: rest) hT]
          exact ⟨h1, h2⟩
      | false =>
          cases hP : env.stopPost i with
          | true =>
              rw [runLoop_stopPost a env 0 inv n u rest i acc j hT hP]
              exact ⟨h1, h2⟩
          | false =>
              rw [runLoop_go_fst a env 0 inv n u rest i acc j hT hP]
              rw [if_neg (by simp)]
              exact ih (i + 1) (acc ++ [processRecord u (env.outcome i)])
                (recordStep j (acc ++ [processRecord u (env.outcome i)])
                  (processRecord u (env.outcome i)) i n) h1 h2

/-- C8: stop is cooperative: when no stop is observed through the
checkpoints of iterations 0..i but the flag is set by the top checkpoint
of iteration i+1, the run performs exactly the remote calls for records
0..i (the in-flight record still finishes and its result is recorded),
ends with results of length i+1, which is at most the input length, and
final status Stopped; in general, after loop exit the status is Stopped
exactly when the flag read after the loop is set, else Completed. -/
theorem c8_cooperative_stop (store : JobStore) (env : RunEnv) (a : String)
    (users : List BulkUserData) (i : ℕ) (hsc : StopConsistent env)
    (hpre : ∀ k, k ≤ i → env.stopTop k = false ∧ env.stopPost k = false)
    (hstop : env.stopTop (i + 1) = true) (hi : i < users.length) :
    callsOf (startImportJob store env a users).2 =
      (users.take (i + 1)).map (fun u => Event.remoteCall a u (getJob store a).sendInvites) ∧
    (getJob (startImportJob store env a users).1 a).results.length = i + 1 ∧
    (getJob (startImportJob store env a users).1 a).results.length ≤ users.length ∧
    (getJob (startImportJob store env a users).1 a).status = .stopped ∧
    (∀ (env' : RunEnv) (store' : JobStore) (users' : List BulkUserData),
      (getJob (startImportJob store' env' a users').1 a).status =
        (if env'.stopFinal = true then JobStatus.stopped else JobStatus.completed)) := by
  obtain ⟨hres, hcalls⟩ := runLoop_stopAt a env (getJob store a).delayInSeconds
    (getJob store a).sendInvites users.length i users 0 [] (startReset (getJob store a))
    (by intro k hk; exact hpre k (by omega))
    (by rw [show 0 + i + 1 = i + 1 by omega]; exact hstop) hi rfl
  have hlen : (getJob (startImportJob store env a users).1 a).results.length = i + 1 := by
    rw [startImportJob_getJob]
    show (runLoop _ _ _ _ _ _ _ _ _).1.results.length = _
    rw [hres]
    simp [processedFrom_length, List.length_take]
    omega
  have hsf : env.stopFinal = true := hsc.2.2 (i + 1) (hsc.1 (i + 1) hstop)
  refine ⟨?_, hlen, ?_, ?_, ?_⟩
  · rw [startImportJob_snd, callsOf_publish_cons, callsOf_append, hcalls]
    simp [callsOf]
  · rw [hlen]
    omega
  · rw [startImportJob_getJob]
    show (if env.stopFinal = true then JobStatus.stopped else JobStatus.completed) = _
    rw [hsf]
    rfl
  · intro env' store' users'
    rw [startImportJob_getJob]

/-- Witness for C8: two records with the stop flag raised after the
first record is in flight. -/
theorem c8_cooperative_stop_witness :
    StopConsistent stopAfterOneEnv ∧
    stopAfterOneEnv.stopTop 1 = true ∧
    (getJob (startImportJob emptyStore stopAfterOneEnv "acct" [uA, uB]).1 "acct").results.length =
      1 ∧
    (getJob (startImportJob emptyStore stopAfterOneEnv "acct" [uA, uB]).1 "acct").status =
      .stopped :=
  have hsc : StopConsistent stopAfterOneEnv :=
    ⟨fun _ h => h,
     fun k h => by
       have hk : 1 ≤ k := of_decide_eq_true h
       exact decide_eq_true (by omega),
     fun _ _ => rfl⟩
  have hpre : ∀ k, k ≤ 0 → stopAfterOneEnv.stopTop k = false ∧
      stopAfterOneEnv.stopPost k = false := by
    intro k hk
    have hk0 : k = 0 := by omega
    subst hk0
    exact ⟨rfl, rfl⟩
  have happ := c8_cooperative_stop emptyStore stopAfterOneEnv "acct" [uA, uB] 0 hsc hpre
    rfl (by decide)
  ⟨hsc, rfl, happ.2.1, happ.2.2.2.1⟩

/-- C7: for every record at index i greater than 0, when the captured
delay d is positive and the run reaches that record, the event trace
contains, immediately before that record's remote call, the countdown
phase for that record's email; the countdown phase publishes first the
pending email with countdown d, then each decremented value down to 0,
and finally clears both fields (for d = 2 the published countdown
values are 2, 1, 0 followed by the clearing 0); no countdown precedes
the first record, and when the captured delay is 0 no published state
of the whole run ever carries a nonzero countdown or a pending email. -/
theorem c7_countdown_behavior :
    (∀ (store : JobStore) (env : RunEnv) (a : String) (users : List BulkUserData)
        (i : ℕ) (hlt : i < users.length), 0 < i →
        (∀ k, k ≤ i → env.stopTop k = false ∧ env.stopPost k = false) →
        0 < (getJob store a).delayInSeconds →
        ∃ p s j1, (startImportJob store env a users).2 =
          p ++ (countdownPhase j1 (users.get ⟨i, hlt⟩).email
              (getJob store a).delayInSeconds).2 ++
            Event.remoteCall a (users.get ⟨i, hlt⟩) (getJob store a).sendInvites :: s) ∧
    (∀ (j : ImportJob) (email : String) (d : ℕ),
        cdValues (countdownPhase j email d).2 =
          d :: (List.range d).map (fun t => d - (t + 1)) ++ [0] ∧
        (countdownPhase j email d).2.head? =
          some (Event.publish { j with nextUserEmail := some email, countdown := d }) ∧
        (countdownPhase j email d).2.getLast? =
          some (Event.publish { j with nextUserEmail := none, countdown := 0 })) ∧
    (∀ (j : ImportJob) (email : String),
        cdValues (countdownPhase j email 2).2 = [2, 1, 0, 0]) ∧
    (∀ (a : String) (env : RunEnv) (d : ℕ) (inv : Bool) (n : ℕ) (u : BulkUserData)
        (rest : List BulkUserData) (acc : List UserOperationResult) (j : ImportJob),
        env.stopTop 0 = false → env.stopPost 0 = false →
        ((runLoop a env d inv n (u :: rest) 0 acc j).2).head? =
          some (Event.remoteCall a u inv)) ∧
    (∀ (store : JobStore) (env : RunEnv) (a : String) (users : List BulkUserData),
        (getJob store a).delayInSeconds = 0 →
        ∀ jj : ImportJob, Event.publish jj ∈ (startImportJob store env a users).2 →
          jj.countdown = 0 ∧ jj.nextUserEmail = none) := by
  refine ⟨?_, ?_, ?_, ?_, ?_⟩
  · intro store env a users i hlt hi hpre hd
    obtain ⟨p, s, j1, hdec⟩ := runLoop_cd_decomp a env (getJob store a).delayInSeconds
      (getJob store a).sendInvites users.length hd i users 0 []
      (startReset (getJob store a)) hlt
      (by intro k hk; exact hpre k (by omega)) (by omega)
    refine ⟨Event.publish (startReset (getJob store a)) :: p,
      s ++ [Event.publish
        { (runLoop a env (getJob store a).delayInSeconds (getJob store a).sendInvites
            users.length users 0 [] (startReset (getJob store a))).1 with
          status := if env.stopFinal then JobStatus.stopped else .completed }], j1, ?_⟩
    rw [startImportJob_snd, hdec]
    simp
  · intro j email d
    exact ⟨cdValues_countdownPhase j email d, countdownPhase_head j email d,
      countdownPhase_last j email d⟩
  · intro j email
    rw [cdValues_countdownPhase]
    rfl
  · intro a env d inv n u rest acc j hT hP
    exact runLoop_first_call a env d inv n u rest acc j hT hP
  · intro store env a users hd jj hjj
    rw [startImportJob_snd] at hjj
    rcases List.mem_cons.mp hjj with hj0 | hjj
    · injection hj0 with hj0
      subst hj0
      exact ⟨rfl, rfl⟩
    rcases List.mem_append.mp hjj with hjj | hjf
    · rw [hd] at hjj
      exact runLoop_cd0_publish a env (getJob store a).sendInvites users.length
        users 0 [] (startReset (getJob store a)) rfl rfl jj hjj
    · rcases List.mem_cons.mp hjf with hjf | hjf
      · injection hjf with hjf
        subst hjf
        have hfin := runLoop_cd0_final a env (getJob store a).sendInvites users.length
          users 0 [] (startReset (getJob store a)) rfl rfl
        rw [hd]
        exact hfin
      · exact absurd hjf (List.not_mem_nil _)

/-- Witness for C7: a two-record run with delay 2 reaches record 1 and
its trace decomposes around the countdown phase for that record. -/
theorem c7_countdown_behavior_witness :
    (∀ k, k ≤ 1 → quietEnv.stopTop k = false ∧ quietEnv.stopPost k = false) ∧
    0 < (getJob delayedStore "acct").delayInSeconds ∧
    (∃ p s j1, (startImportJob delayedStore quietEnv "acct" [uA, uB]).2 =
      p ++ (countdownPhase j1 uB.email (getJob delayedStore "acct").delayInSeconds).2 ++
        Event.remoteCall "acct" uB (getJob delayedStore "acct").sendInvites :: s) ∧
    cdValues (countdownPhase initialJobState "b@x.com" 2).2 = [2, 1, 0, 0] :=
  ⟨fun _ _ => ⟨rfl, rfl⟩, by decide,
   c7_countdown_behavior.1 delayedStore quietEnv "acct" [uA, uB] 1 (by decide)
     (by decide) (fun _ _ => ⟨rfl, rfl⟩) (by decide),
   c7_countdown_behavior.2.2.1 initialJobState "b@x.com"⟩
